import Mathlib

/-!
Shallow embedding of the hexcast core (uvspeed_hexcast.py) and proofs of the
specification claims. Python integers are modelled as ℕ/ℤ, Python floats as
exact rationals (ℚ) or decimal pairs where serialization matters; fallible
Python code is modelled with Option/Except, an uncaught exception being an
Except.error value.
-/

namespace Hexcast

/-! ### Latency probe (run_ping / do_ping, uvspeed_hexcast.py 691-760)

The probe loop sends count sequential pings; probe i awaits its reply with
asyncio.wait_for(..., timeout=5.0). reply i = some rtt models a reply
arriving within the bound with round-trip time rtt; reply i = none models
the timeout, in which case wait_for raises TimeoutError, which propagates
out of the for loop into the outer except-Exception handler. -/

/-- Sequentially run the probes starting at index i with fuel probes left,
accumulating round-trip times; a timeout (none) aborts the loop by
propagating the exception, yielding none. -/
def ping_probes (reply : Nat → Option ℚ) : Nat → Nat → Option (List ℚ)
  | _, 0 => some []
  | i, Nat.succ fuel =>
    match reply i with
    | none => none
    | some rtt => (ping_probes reply (i + 1) fuel).map (fun ts => rtt :: ts)

/-- Outcome of do_ping: either the error path (the except-Exception handler
printed an error and no statistics were reported) or the statistics line,
which reports the probe count together with avg, min, max and jitter. -/
inductive PingResult where
  | error : PingResult
  | stats (reported : Nat) (times : List ℚ) (avg mn mx jitter : ℚ) : PingResult
deriving DecidableEq

/-- Python min over a nonempty list (seeded fold). -/
def list_min : List ℚ → ℚ
  | [] => 0
  | x :: xs => xs.foldl min x

/-- Python max over a nonempty list (seeded fold). -/
def list_max : List ℚ → ℚ
  | [] => 0
  | x :: xs => xs.foldl max x

/-- The do_ping coroutine: run the probe loop; any exception (a probe
timeout, or the ZeroDivisionError of avg = sum/len when times is empty)
reaches the except-Exception handler and no statistics are reported.
Otherwise the stats line prints count (the constant 10 in the source),
avg = sum(times)/len(times), min, max and jitter = max - min. -/
def do_ping (reply : Nat → Option ℚ) (count : Nat) : PingResult :=
  match ping_probes reply 0 count with
  | none => PingResult.error
  | some times =>
    if times.length = 0 then PingResult.error
    else PingResult.stats count times (times.sum / times.length)
      (list_min times) (list_max times) (list_max times - list_min times)

/-! ### Broadcaster fan-out (broadcast_loop / handler, uvspeed_hexcast.py 260-304)

One fan-out round iterates a snapshot of the client set (clients.copy()),
awaits ws.send(packet) for each client, collects the clients whose send
raised into dead, and only after the loop removes them (clients -= dead).
sendOk w = true models a successful send to w, false a raising one. -/

/-- The for-loop of one fan-out round over the snapshot: returns
(delivered, dead) in iteration order. -/
def fan_out {Peer : Type} (clients : List Peer) (sendOk : Peer → Bool) :
    List Peer × List Peer :=
  match clients with
  | [] => ([], [])
  | w :: rest =>
    let r := fan_out rest sendOk
    if sendOk w then (w :: r.1, r.2) else (r.1, w :: r.2)

/-- A full round: run the fan-out pass, then clients -= dead. Returns
(delivered, next client set). -/
def broadcast_round {Peer : Type} [DecidableEq Peer] (clients : List Peer)
    (sendOk : Peer → Bool) : List Peer × List Peer :=
  let fr := fan_out clients sendOk
  (fr.1, clients.filter (fun w => decide (w ∉ fr.2)))

/-! ### Thermal palette (thermal_map, uvspeed_hexcast.py 1116-1128)

Pixel channels are uint8 values, modelled as ℕ. The luminance
int(0.299*r + 0.587*g + 0.114*b) is computed in binary64 floating point:
the literals denote the nearest doubles to 0.299, 0.587 and 0.114, the
expression evaluates left-associated with each multiplication and
addition rounded to nearest, ties to even, and int() truncates the
nonnegative result toward zero. Every intermediate value here is a
nonnegative normal double far from overflow, so binary64 arithmetic is
modelled exactly by dyadic rationals n / 2^e with the numerator rounded
to 53 significant bits after each operation. Python max(0, 255 - t*2) on
ints coincides with ℕ max 0 (255 - t*2) under truncated subtraction for
every t. -/

/-- Bit length of a natural number, by fuel (70 exceeds the bit length of
every numerator arising in the luminance computation). -/
def bitlen : Nat → Nat → Nat
  | 0, _ => 0
  | fuel + 1, n => if n = 0 then 0 else bitlen fuel (n / 2) + 1

/-- Round a natural number to at most 53 significant bits, to nearest
with ties to even: the binary64 significand rounding, applied to the
numerator of a dyadic rational (trailing zero bits never round). -/
def round53 (n : Nat) : Nat :=
  let b := bitlen 70 n
  if b ≤ 53 then n
  else
    let s := b - 53
    let q := n / 2 ^ s
    let r := n % 2 ^ s
    let h := 2 ^ (s - 1)
    if h < r ∨ (r = h ∧ q % 2 = 1) then (q + 1) * 2 ^ s else q * 2 ^ s

/-- A nonnegative binary64 value as the exact dyadic rational n / 2^e. -/
structure Dy where
  n : Nat
  e : Nat

/-- Round a dyadic value to binary64 precision. -/
def dyRound (x : Dy) : Dy := ⟨round53 x.n, x.e⟩

/-- Binary64 product of a double and a small integer (the integer and the
product before rounding are exact). -/
def dyMulNat (c : Dy) (k : Nat) : Dy := dyRound ⟨c.n * k, c.e⟩

/-- Binary64 addition: the exact sum over the common power-of-two
denominator, then significand rounding. -/
def dyAdd (x y : Dy) : Dy :=
  dyRound ⟨x.n * 2 ^ (max x.e y.e - x.e) + y.n * 2 ^ (max x.e y.e - y.e), max x.e y.e⟩

/-- Truncation of a nonnegative double to an integer (Python int()). -/
def dyFloor (x : Dy) : Nat := x.n / 2 ^ x.e

/-- The double nearest 0.299: 5386305154335113 / 2^54. -/
def c299 : Dy := ⟨5386305154335113, 54⟩

/-- The double nearest 0.587: 2643612981266481 / 2^52. -/
def c587 : Dy := ⟨2643612981266481, 52⟩

/-- The double nearest 0.114: 8214565720323785 / 2^56. -/
def c114 : Dy := ⟨8214565720323785, 56⟩

/-- Integer luminance of an (r, g, b) pixel:
int(0.299*r + 0.587*g + 0.114*b) in binary64 arithmetic. -/
def luma (r g b : Nat) : Nat :=
  dyFloor (dyAdd (dyAdd (dyMulNat c299 r) (dyMulNat c587 g)) (dyMulNat c114 b))

/-- False-color thermal gradient: dark → blue → green → red → white. -/
def thermal_map (r g b : Nat) : Nat × Nat × Nat :=
  let l := luma r g b
  if l < 64 then (0, l * 2, min 255 (l * 4))
  else if l < 128 then
    let t := l - 64
    (0, min 255 (t * 4), max 0 (255 - t * 2))
  else if l < 192 then
    let t := l - 128
    (min 255 (t * 4), max 0 (255 - t * 2), 0)
  else
    let t := l - 192
    (255, min 255 (t * 4), min 255 (t * 2))

/-! ### ASCII ramp (rgb_to_ascii, uvspeed_hexcast.py 1131-1137) -/

/-- The fixed character ramp of ASCII mode. -/
def ASCII_RAMP : String := " .:-=+*#%@"

/-- Map a pixel to a ramp character by luminance. -/
def rgb_to_ascii (r g b : Nat) : Char :=
  let l := luma r g b
  let idx := min (ASCII_RAMP.length - 1) (l * ASCII_RAMP.length / 256)
  ASCII_RAMP.data.getD idx ' '

/-! ### Frame rendering (render_frame_truecolor / render_frame_ascii,
uvspeed_hexcast.py 1148-1236)

A pixel buffer of arbitrary size is first resized by an external library
(cv2.resize or PIL resize) to the target grid; get_pixel x y models the
resized buffer (already brightness-scaled for the numpy branch, where
np.clip(resized * brightness, 0, 255) is applied to the array before the
loop). For the PIL branch (is_pil = true) brightness is applied per pixel
inside the loop as min(255, int(v * brightness)); int() truncation of the
nonnegative float is modelled as the rational floor. -/

/-- Decimal digit characters of a natural number (Python str/repr). -/
def natDigits (n : Nat) : List Char :=
  if h : n < 10 then [Char.ofNat (48 + n)]
  else natDigits (n / 10) ++ [Char.ofNat (48 + n % 10)]
decreasing_by exact Nat.div_lt_self (by omega) (by omega)

/-- Decimal string of a natural number. -/
def natStr (n : Nat) : String := String.mk (natDigits n)

/-- ANSI truecolor foreground escape. -/
def truecolor_fg (r g b : Nat) : String :=
  "\x1b[38;2;" ++ natStr r ++ ";" ++ natStr g ++ ";" ++ natStr b ++ "m"

/-- ANSI truecolor background escape. -/
def truecolor_bg (r g b : Nat) : String :=
  "\x1b[48;2;" ++ natStr r ++ ";" ++ natStr g ++ ";" ++ natStr b ++ "m"

/-- The half-height glyph used by truecolor mode. -/
def UPPER_HALF : String := "▀"

/-- ANSI reset appended at the end of every rendered line. -/
def RESET : String := "\x1b[0m"

/-- An (r, g, b) pixel. -/
abbrev Rgb := Nat × Nat × Nat

/-- PIL-branch brightness scaling of one channel:
min(255, int(v * brightness)). -/
def brighten (brightness : ℚ) (v : Nat) : Nat :=
  min 255 (Int.toNat ⌊(v : ℚ) * brightness⌋)

/-- Apply brighten to all three channels. -/
def brighten3 (brightness : ℚ) (p : Rgb) : Rgb :=
  (brighten brightness p.1, brighten brightness p.2.1, brighten brightness p.2.2)

/-- Apply thermal_map to an Rgb triple. -/
def thermal3 (p : Rgb) : Rgb := thermal_map p.1 p.2.1 p.2.2

/-- One character cell of a truecolor line: two vertically adjacent source
pixels become the foreground/background of one half-block glyph. -/
def truecolor_cell (get_pixel : Nat → Nat → Rgb) (is_pil : Bool)
    (target_h : Nat) (thermal : Bool) (brightness : ℚ) (row x : Nat) : String :=
  let y0 := row * 2
  let y1 := row * 2 + 1
  let p0 := get_pixel x y0
  let p1 := if y1 < target_h then get_pixel x y1 else (0, 0, 0)
  let p0 := if brightness ≠ 1 ∧ is_pil then brighten3 brightness p0 else p0
  let p1 := if brightness ≠ 1 ∧ is_pil then brighten3 brightness p1 else p1
  let p0 := if thermal then thermal3 p0 else p0
  let p1 := if thermal then thermal3 p1 else p1
  truecolor_fg p0.1 p0.2.1 p0.2.2 ++ truecolor_bg p1.1 p1.2.1 p1.2.2 ++ UPPER_HALF

/-- The parts list of one rendered truecolor row (one entry per column). -/
def truecolor_row_cells (get_pixel : Nat → Nat → Rgb) (is_pil : Bool)
    (cols rows : Nat) (thermal : Bool) (brightness : ℚ) (row : Nat) : List String :=
  (List.range cols).map (truecolor_cell get_pixel is_pil (rows * 2) thermal brightness row)

/-- The rendered lines of render_frame_truecolor, one per terminal row. -/
def render_frame_truecolor_lines (get_pixel : Nat → Nat → Rgb) (is_pil : Bool)
    (cols rows : Nat) (thermal : Bool) (brightness : ℚ) : List String :=
  (List.range rows).map
    (fun row => String.join (truecolor_row_cells get_pixel is_pil cols rows thermal brightness row) ++ RESET)

/-- render_frame_truecolor: newline-joined rows of half-block cells. -/
def render_frame_truecolor (get_pixel : Nat → Nat → Rgb) (is_pil : Bool)
    (cols rows : Nat) (thermal : Bool) (brightness : ℚ) : String :=
  String.intercalate "\n" (render_frame_truecolor_lines get_pixel is_pil cols rows thermal brightness)

/-- One character cell of an ASCII line: the pixel's ramp character in the
pixel's color. -/
def ascii_cell (get_pixel : Nat → Nat → Rgb) (is_pil : Bool)
    (thermal : Bool) (brightness : ℚ) (y x : Nat) : String :=
  let p := get_pixel x y
  let p := if brightness ≠ 1 ∧ is_pil then brighten3 brightness p else p
  let p := if thermal then thermal3 p else p
  truecolor_fg p.1 p.2.1 p.2.2 ++ String.mk [rgb_to_ascii p.1 p.2.1 p.2.2]

/-- The parts list of one rendered ASCII row. -/
def ascii_row_cells (get_pixel : Nat → Nat → Rgb) (is_pil : Bool)
    (cols : Nat) (thermal : Bool) (brightness : ℚ) (y : Nat) : List String :=
  (List.range cols).map (ascii_cell get_pixel is_pil thermal brightness y)

/-- The rendered lines of render_frame_ascii. -/
def render_frame_ascii_lines (get_pixel : Nat → Nat → Rgb) (is_pil : Bool)
    (cols rows : Nat) (thermal : Bool) (brightness : ℚ) : List String :=
  (List.range rows).map
    (fun y => String.join (ascii_row_cells get_pixel is_pil cols thermal brightness y) ++ RESET)

/-- render_frame_ascii: newline-joined rows of colored ramp characters. -/
def render_frame_ascii (get_pixel : Nat → Nat → Rgb) (is_pil : Bool)
    (cols rows : Nat) (thermal : Bool) (brightness : ℚ) : String :=
  String.intercalate "\n" (render_frame_ascii_lines get_pixel is_pil cols rows thermal brightness)

/-! ### Test pattern (generate_test_pattern, uvspeed_hexcast.py 1244-1274)

The h-by-w-by-3 uint8 ndarray is modelled as a list of h rows of w Rgb
triples. numpy slice assignment clamps out-of-range bounds, modelled by
the index guards. The float32 scaling (v * 0.3).astype(uint8) is modelled
exactly as v * 3 / 10, which agrees with the float32 computation on
uint8 values; int(255 * x / max(1, w - 1)) is modelled as exact rational
division floored, 255 * x / max 1 (w - 1) in ℕ. -/

/-- A raw pixel buffer: a list of rows, each a list of Rgb pixels. -/
abbrev Frame := List (List Rgb)

/-- numpy shape[0] of a frame (its height). -/
def fshape0 (f : Frame) : Nat := f.length

/-- numpy shape[1] of a frame (its width, read off the first row). -/
def fshape1 (f : Frame) : Nat := (f.headD []).length

/-- The color-bar table of the test pattern, in the source's BGR order. -/
def pattern_colors : List Rgb :=
  [(255, 255, 255), (0, 255, 255), (255, 255, 0), (0, 255, 0),
   (255, 0, 255), (0, 0, 255), (255, 0, 0), (0, 0, 0)]

/-- img[:, x0:x1] = v, a full-height column-band fill. -/
def write_cols (img : Frame) (x0 x1 : Nat) (v : Rgb) : Frame :=
  img.map (fun row => row.mapIdx (fun x p => if x0 ≤ x ∧ x < x1 then v else p))

/-- generate_test_pattern: eight vertical color bars, a darkened scanline
that advances with the frame index, and a grayscale gradient strip along
the bottom. -/
def generate_test_pattern (w h : Nat) (frame_num : Nat) : Frame :=
  let img : Frame := List.replicate h (List.replicate w (0, 0, 0))
  let bar_w := max 1 (w / 8)
  let img := (List.range 8).foldl
    (fun acc i =>
      let x0 := i * bar_w
      let x1 := if i < 7 then (i + 1) * bar_w else w
      let c := pattern_colors.getD i (0, 0, 0)
      write_cols acc x0 x1 (c.2.2, c.2.1, c.1)) img
  let scan_y := (frame_num * 3) % h
  let y0 := max 0 (scan_y - 1)
  let y1 := min h (scan_y + 2)
  let img := img.mapIdx (fun y row =>
    if y0 ≤ y ∧ y < y1 then
      row.map (fun p => (p.1 * 3 / 10, p.2.1 * 3 / 10, p.2.2 * 3 / 10))
    else row)
  let grad_h := max 1 (h / 10)
  img.mapIdx (fun y row =>
    if h - grad_h ≤ y then
      row.mapIdx (fun x _ =>
        let v := 255 * x / max 1 (w - 1)
        (v, v, v))
    else row)

/-! ### Process exit behavior (run_serve 306-337, run_connect 441-446,
run_receive 920-948; uvspeed_hexcast.py)

The exit-relevant control flow of each role is modelled as a function from
the decisive session event to the printed messages and the process exit
code. Message constructors stand for the concrete print calls at the cited
lines; a raw stack trace is not among them, so a path whose message list is
built from these constructors printed no traceback. -/

/-- The user-visible messages on the exit paths. -/
inductive Msg where
  | errPortInUse (port : Nat) : Msg
  | remedyAltPort (port : Nat) : Msg
  | remedyKillProcess (port : Nat) : Msg
  | errCameraOpen (idx : Nat) : Msg
  | remedyUseTestPattern : Msg
  | connFailed (host : String) : Msg
  | remedyIsServeRunning (host : String) : Msg
  | serveStopped : Msg
  | disconnected : Msg
  | receiveStopped : Msg
  | chatFailed : Msg
deriving DecidableEq

/-- The decisive event of a serve session. -/
inductive ServeEvent where
  | cameraFail : ServeEvent
  | bindPortInUse : ServeEvent
  | interrupt : ServeEvent
deriving DecidableEq

/-- run_serve: camera-open failure prints a remedy and sys.exit(1); a bind
failure on an in-use port prints the port and two remedies inside
main_serve, after which main_serve returns normally, the finally block
prints the stop line and run_serve returns, so the process exits 0; a
KeyboardInterrupt is caught and also exits 0. -/
def run_serve_exit (port camIdx : Nat) : ServeEvent → List Msg × Nat
  | ServeEvent.cameraFail => ([Msg.errCameraOpen camIdx, Msg.remedyUseTestPattern], 1)
  | ServeEvent.bindPortInUse =>
    ([Msg.errPortInUse port, Msg.remedyAltPort (port + 1),
      Msg.remedyKillProcess port, Msg.serveStopped], 0)
  | ServeEvent.interrupt => ([Msg.serveStopped], 0)

/-- The decisive event of a viewer (connect) session. -/
inductive ConnectEvent where
  | connectFail : ConnectEvent
  | quitKey : ConnectEvent
deriving DecidableEq

/-- run_connect: any connection failure is caught by the except-Exception
handler, which restores the terminal, prints the failing target and a
remedy, and calls sys.exit(1); the quit key runs cleanup, which prints the
disconnect line and calls sys.exit(0). -/
def run_connect_exit (host : String) : ConnectEvent → List Msg × Nat
  | ConnectEvent.connectFail => ([Msg.connFailed host, Msg.remedyIsServeRunning host], 1)
  | ConnectEvent.quitKey => ([Msg.disconnected], 0)

/-- The decisive event of a receive session. -/
inductive ReceiveEvent where
  | bindPortInUse : ReceiveEvent
  | quitKey : ReceiveEvent
deriving DecidableEq

/-- run_receive: a bind failure on an in-use port prints the port and two
remedies inside main_receive, which then returns normally and run_receive
falls off the end, so the process exits 0; the quit key runs cleanup and
sys.exit(0). -/
def run_receive_exit (port : Nat) : ReceiveEvent → List Msg × Nat
  | ReceiveEvent.bindPortInUse =>
    ([Msg.errPortInUse port, Msg.remedyAltPort (port + 1), Msg.remedyKillProcess port], 0)
  | ReceiveEvent.quitKey => ([Msg.receiveStopped], 0)

/-! ### JSON values (the metadata line of the wire protocol)

Python json values: dicts keep insertion order; ints and floats are
distinct; a float is modelled as a decimal m / 10^e (mantissa and number
of digits after the point), which is exact for every decimal literal the
repr of a float produces. Json.null models Python None. The nonstandard
constants NaN/Infinity accepted by json.loads are not modelled. -/

/-- A Python json value. -/
inductive Json where
  | null : Json
  | bool (b : Bool) : Json
  | int (n : Int) : Json
  | dec (m : Int) (e : Nat) : Json
  | str (s : String) : Json
  | arr (xs : List Json) : Json
  | obj (kvs : List (String × Json)) : Json

/-- Lowercase hex digit character (as the json module emits). -/
def hexDigitChar (d : Nat) : Char :=
  if d < 10 then Char.ofNat (48 + d) else Char.ofNat (87 + d)

/-- Four-digit hex rendering of a code unit, for a \u escape. -/
def hex4 (n : Nat) : List Char :=
  [hexDigitChar (n / 4096 % 16), hexDigitChar (n / 256 % 16),
   hexDigitChar (n / 16 % 16), hexDigitChar (n % 16)]

/-- json.dumps escaping of one character with the default ensure_ascii:
quote and backslash get two-character escapes, the named control escapes
are used for \b \t \n \f \r, other control characters and every
non-ASCII character become \uXXXX (a surrogate pair above U+FFFF). -/
def escapeChar (c : Char) : List Char :=
  if c = '"' then ['\\', '"']
  else if c = '\\' then ['\\', '\\']
  else if c = '\n' then ['\\', 'n']
  else if c = '\t' then ['\\', 't']
  else if c = '\r' then ['\\', 'r']
  else if c.toNat = 8 then ['\\', 'b']
  else if c.toNat = 12 then ['\\', 'f']
  else if c.toNat < 32 then '\\' :: 'u' :: hex4 c.toNat
  else if c.toNat < 127 then [c]
  else if c.toNat < 65536 then '\\' :: 'u' :: hex4 c.toNat
  else
    '\\' :: 'u' :: hex4 (55296 + (c.toNat - 65536) / 1024) ++
      '\\' :: 'u' :: hex4 (56320 + (c.toNat - 65536) % 1024)

/-- The characters of a dumped json string literal, quotes included. -/
def dumpString (s : String) : List Char :=
  '"' :: (s.data.map escapeChar).flatten ++ ['"']

/-- Decimal digit characters of an integer (Python repr). -/
def intDigits (n : Int) : List Char :=
  if n < 0 then '-' :: natDigits n.natAbs else natDigits n.toNat

/-- Zero-padded digit characters of k to exactly width positions
(the fractional digits of a decimal; k < 10^width at every use). -/
def natDigitsPad (width k : Nat) : List Char :=
  List.replicate (width - (natDigits k).length) '0' ++ natDigits k

/-- The characters of a dumped float m / 10^e: sign, integer digits,
point, exactly e fractional digits (Python float repr always shows at
least one fractional digit, so e = 0 is rendered with a trailing .0). -/
def dumpDec (m : Int) (e : Nat) : List Char :=
  if e = 0 then intDigits m ++ ['.', '0']
  else
    (if m < 0 then ['-'] else []) ++
      natDigits (m.natAbs / 10 ^ e) ++ '.' :: natDigitsPad e (m.natAbs % 10 ^ e)

mutual

/-- json.dumps with the default separators: items joined by a comma and a
space, keys and values by a colon and a space. -/
def dumpJson : Json → List Char
  | Json.null => ['n', 'u', 'l', 'l']
  | Json.bool true => ['t', 'r', 'u', 'e']
  | Json.bool false => ['f', 'a', 'l', 's', 'e']
  | Json.int n => intDigits n
  | Json.dec m e => dumpDec m e
  | Json.str s => dumpString s
  | Json.arr xs => '[' :: dumpArr xs ++ [']']
  | Json.obj kvs => '{' :: dumpObj kvs ++ ['}']

/-- Array items with the default item separator. -/
def dumpArr : List Json → List Char
  | [] => []
  | [x] => dumpJson x
  | x :: y :: rest => dumpJson x ++ ',' :: ' ' :: dumpArr (y :: rest)

/-- Object members with the default separators. -/
def dumpObj : List (String × Json) → List Char
  | [] => []
  | [(k, v)] => dumpString k ++ ':' :: ' ' :: dumpJson v
  | (k, v) :: m :: rest =>
    dumpString k ++ ':' :: ' ' :: dumpJson v ++ ',' :: ' ' :: dumpObj (m :: rest)

end

/-- json.dumps as a string. -/
def json_dumps (j : Json) : String := String.mk (dumpJson j)

/-! ### JSON parsing (json.loads)

A recursive-descent parser over the character list, faithful to the json
module: the number grammar forbids leading zeros, strings reject raw
control characters (strict mode) and decode \u escapes with surrogate-pair
combination (lone surrogate escapes, which Python can represent but a Lean
Char cannot, are rejected), and only whitespace may follow the top-level
value. Structural recursion is driven by a fuel argument; input length + 1
fuel always suffices because every recursive descent consumes input. -/

/-- JSON whitespace skipping. -/
def skipWs : List Char → List Char
  | c :: cs =>
    if c = ' ' ∨ c = '\t' ∨ c = '\n' ∨ c = '\r' then skipWs cs else c :: cs
  | [] => []

/-- Value of one hex digit character. -/
def hexVal (c : Char) : Option Nat :=
  if 48 ≤ c.toNat ∧ c.toNat ≤ 57 then some (c.toNat - 48)
  else if 97 ≤ c.toNat ∧ c.toNat ≤ 102 then some (c.toNat - 87)
  else if 65 ≤ c.toNat ∧ c.toNat ≤ 70 then some (c.toNat - 55)
  else none

/-- Read exactly four hex digits. -/
def parseHex4 : List Char → Option (Nat × List Char)
  | a :: b :: c :: d :: rest => do
    let va ← hexVal a
    let vb ← hexVal b
    let vc ← hexVal c
    let vd ← hexVal d
    some (va * 4096 + vb * 256 + vc * 16 + vd, rest)
  | _ => none

/-- Prepend a decoded character to a string-body parse result. -/
def consFst (c : Char) (r : Option (List Char × List Char)) :
    Option (List Char × List Char) :=
  r.map (fun p => (c :: p.1, p.2))

/-- Parse the body of a string literal up to and including the closing
quote, decoding escapes; returns the decoded characters and the rest. -/
def parseStringBody : Nat → List Char → Option (List Char × List Char)
  | 0, _ => none
  | _ + 1, [] => none
  | fuel + 1, c :: cs =>
    if c = '"' then some ([], cs)
    else if c = '\\' then
      match cs with
      | [] => none
      | e :: cs2 =>
        if e = '"' then consFst '"' (parseStringBody fuel cs2)
        else if e = '\\' then consFst '\\' (parseStringBody fuel cs2)
        else if e = '/' then consFst '/' (parseStringBody fuel cs2)
        else if e = 'b' then consFst (Char.ofNat 8) (parseStringBody fuel cs2)
        else if e = 'f' then consFst (Char.ofNat 12) (parseStringBody fuel cs2)
        else if e = 'n' then consFst '\n' (parseStringBody fuel cs2)
        else if e = 'r' then consFst '\r' (parseStringBody fuel cs2)
        else if e = 't' then consFst '\t' (parseStringBody fuel cs2)
        else if e = 'u' then
          match parseHex4 cs2 with
          | none => none
          | some (n, cs3) =>
            if 55296 ≤ n ∧ n < 56320 then
              match cs3 with
              | b1 :: b2 :: cs4 =>
                if b1 = '\\' ∧ b2 = 'u' then
                  match parseHex4 cs4 with
                  | none => none
                  | some (n2, cs5) =>
                    if 56320 ≤ n2 ∧ n2 < 57344 then
                      consFst (Char.ofNat (65536 + (n - 55296) * 1024 + (n2 - 56320)))
                        (parseStringBody fuel cs5)
                    else none
                else none
              | _ => none
            else if 56320 ≤ n ∧ n < 57344 then none
            else consFst (Char.ofNat n) (parseStringBody fuel cs3)
        else none
    else if c.toNat < 32 then none
    else consFst c (parseStringBody fuel cs)

/-- Longest prefix of decimal digits and the rest. -/
def spanDigits : List Char → List Char × List Char
  | [] => ([], [])
  | c :: cs =>
    if 48 ≤ c.toNat ∧ c.toNat ≤ 57 then
      let r := spanDigits cs
      (c :: r.1, r.2)
    else ([], c :: cs)

/-- Numeric value of a digit-character list (leading zeros allowed). -/
def digitsToNat (ds : List Char) : Nat :=
  ds.foldl (fun acc c => acc * 10 + (c.toNat - 48)) 0

/-- Parse the integer part per the json grammar: either a single 0 or a
nonzero digit followed by digits. -/
def parseIntPart : List Char → Option (List Char × List Char)
  | [] => none
  | c :: cs =>
    if c = '0' then some (['0'], cs)
    else if 49 ≤ c.toNat ∧ c.toNat ≤ 57 then
      let r := spanDigits cs
      some (c :: r.1, r.2)
    else none

/-- Parse an optional fractional part; a point not followed by a digit is
not consumed (the regex group simply does not match). -/
def parseFracPart : List Char → List Char × List Char
  | [] => ([], [])
  | c :: cs =>
    if c = '.' then
      let r := spanDigits cs
      if r.1 = [] then ([], c :: cs) else (r.1, r.2)
    else ([], c :: cs)

/-- Parse an optional exponent part, returning its signed value. -/
def parseExpPart : List Char → Option Int × List Char
  | c :: cs =>
    if c = 'e' ∨ c = 'E' then
      match cs with
      | s :: cs2 =>
        if s = '+' then
          let r := spanDigits cs2
          if r.1 = [] then (none, c :: cs) else (some (digitsToNat r.1), r.2)
        else if s = '-' then
          let r := spanDigits cs2
          if r.1 = [] then (none, c :: cs) else (some (-(digitsToNat r.1 : Int)), r.2)
        else
          let r := spanDigits cs
          if r.1 = [] then (none, c :: cs) else (some (digitsToNat r.1), r.2)
      | [] => (none, [c])
    else (none, c :: cs)
  | [] => (none, [])

/-- Parse a json number: an int when there is neither fraction nor
exponent, otherwise a float, normalised to mantissa/fractional-digits
form. -/
def parseNumber (cs : List Char) : Option (Json × List Char) :=
  let p := match cs with
    | c :: r => if c = '-' then (true, r) else (false, c :: r)
    | [] => (false, ([] : List Char))
  let sign := p.1
  let cs1 := p.2
  match parseIntPart cs1 with
  | none => none
  | some (ip, cs2) =>
    let fr := parseFracPart cs2
    let ex := parseExpPart fr.2
    match fr.1, ex.1 with
    | [], none =>
      let v : Int := digitsToNat ip
      some (Json.int (if sign then -v else v), ex.2)
    | fs, expOpt =>
      let mant : Int := digitsToNat (ip ++ fs)
      let mant := if sign then -mant else mant
      let e10 : Int := (fs.length : Int) - expOpt.getD 0
      if e10 ≤ 0 then some (Json.dec (mant * 10 ^ (-e10).toNat) 0, ex.2)
      else some (Json.dec mant e10.toNat, ex.2)

mutual

/-- Parse one json value (after optional leading whitespace); the scanner
dispatches on the first character exactly as the json module does: string,
array, object, one of the three literal constants, else the number
grammar. -/
def parseValue : Nat → List Char → Option (Json × List Char)
  | 0, _ => none
  | fuel + 1, cs =>
    match skipWs cs with
    | [] => none
    | c :: cs2 =>
      if c = '"' then
        match parseStringBody (cs2.length + 1) cs2 with
        | some (content, rest2) => some (Json.str (String.mk content), rest2)
        | none => none
      else if c = '[' then
        match skipWs cs2 with
        | ']' :: rest2 => some (Json.arr [], rest2)
        | _ =>
          match parseItems fuel cs2 with
          | some (xs, rest2) => some (Json.arr xs, rest2)
          | none => none
      else if c = '{' then
        match skipWs cs2 with
        | '}' :: rest2 => some (Json.obj [], rest2)
        | _ =>
          match parseMembers fuel cs2 with
          | some (kvs, rest2) => some (Json.obj kvs, rest2)
          | none => none
      else if c = 'n' then
        match cs2 with
        | 'u' :: 'l' :: 'l' :: rest => some (Json.null, rest)
        | _ => none
      else if c = 't' then
        match cs2 with
        | 'r' :: 'u' :: 'e' :: rest => some (Json.bool true, rest)
        | _ => none
      else if c = 'f' then
        match cs2 with
        | 'a' :: 'l' :: 's' :: 'e' :: rest => some (Json.bool false, rest)
        | _ => none
      else parseNumber (c :: cs2)

/-- Parse one or more comma-separated array items up to the closing
bracket. -/
def parseItems : Nat → List Char → Option (List Json × List Char)
  | 0, _ => none
  | fuel + 1, cs =>
    match parseValue fuel cs with
    | none => none
    | some (v, rest) =>
      match skipWs rest with
      | [] => none
      | c :: rest2 =>
        if c = ',' then
          match parseItems fuel rest2 with
          | none => none
          | some (xs, rest3) => some (v :: xs, rest3)
        else if c = ']' then some ([v], rest2)
        else none

/-- Parse one or more comma-separated object members up to the closing
brace. -/
def parseMembers : Nat → List Char → Option (List (String × Json) × List Char)
  | 0, _ => none
  | fuel + 1, cs =>
    match skipWs cs with
    | [] => none
    | c :: cs2 =>
      if c = '"' then
        match parseStringBody (cs2.length + 1) cs2 with
        | none => none
        | some (key, rest2) =>
          match skipWs rest2 with
          | [] => none
          | c2 :: rest3 =>
            if c2 = ':' then
              match parseValue fuel rest3 with
              | none => none
              | some (v, rest4) =>
                match skipWs rest4 with
                | [] => none
                | c3 :: rest5 =>
                  if c3 = ',' then
                    match parseMembers fuel rest5 with
                    | none => none
                    | some (kvs, rest6) => some ((String.mk key, v) :: kvs, rest6)
                  else if c3 = '}' then some ([(String.mk key, v)], rest5)
                  else none
            else none
      else none

end

/-- json.loads: parse one value and require only trailing whitespace. -/
def json_loads (s : String) : Option Json :=
  match parseValue (s.length + 1) s.data with
  | some (j, rest) => if skipWs rest = [] then some j else none
  | none => none

/-- Specification helper: the remainder does not begin with a character
that could extend a numeric literal, so a number parse stops exactly at
the boundary. Inside an object the remainder begins with a comma or a
closing brace, which satisfies this. -/
def numBoundary : List Char → Prop
  | [] => True
  | c :: _ => ¬(48 ≤ c.toNat ∧ c.toNat ≤ 57) ∧ c ≠ '.' ∧ c ≠ 'e' ∧ c ≠ 'E'

/-! ### Base64 (base64.b64encode / base64.b64decode)

Payload bytes are naturals below 256. b64decode is called with the default
validate=False: characters outside the alphabet and padding are discarded,
then a length not divisible by four raises binascii.Error (none here);
misplaced padding also fails. -/

/-- The standard base64 alphabet. -/
def B64_ALPHABET : List Char :=
  "ABCDEFGHIJKLMNOPQRSTUVWXYZabcdefghijklmnopqrstuvwxyz0123456789+/".data

/-- Character of a six-bit group. -/
def b64chr (i : Nat) : Char := B64_ALPHABET.getD i '='

/-- Index of an alphabet character. -/
def b64index (c : Char) : Option Nat :=
  let i := B64_ALPHABET.indexOf c
  if i < 64 then some i else none

/-- base64.b64encode over byte triples, padding the final partial group. -/
def b64encode : List Nat → List Char
  | [] => []
  | [x] => [b64chr (x / 4), b64chr (x % 4 * 16), '=', '=']
  | [x, y] => [b64chr (x / 4), b64chr (x % 4 * 16 + y / 16), b64chr (y % 16 * 4), '=']
  | x :: y :: z :: rest =>
    [b64chr (x / 4), b64chr (x % 4 * 16 + y / 16),
     b64chr (y % 16 * 4 + z / 64), b64chr (z % 64)] ++ b64encode rest

/-- Decode whole four-character groups; padding is legal only in the final
group. -/
def b64groups : List Char → Option (List Nat)
  | [] => some []
  | a :: b :: c :: d :: rest =>
    (match b64index a, b64index b with
     | some i, some j =>
       if c = '=' then
         if d = '=' ∧ rest = [] then some [i * 4 + j / 16] else none
       else
         match b64index c with
         | some k =>
           if d = '=' then
             if rest = [] then some [i * 4 + j / 16, j % 16 * 16 + k / 4] else none
           else
             match b64index d with
             | some l =>
               (b64groups rest).map
                 (fun tl => (i * 4 + j / 16) :: (j % 16 * 16 + k / 4) :: (k % 4 * 64 + l) :: tl)
             | none => none
         | none => none
     | _, _ => none)
  | _ => none

/-- base64.b64decode with validate=False: discard foreign characters, then
require a multiple-of-four length and decode. -/
def b64decode (s : List Char) : Option (List Nat) :=
  let t := s.filter (fun c => (b64index c).isSome || c == '=')
  if t.length % 4 = 0 then b64groups t else none

/-! ### Wire packets (make_packet 162-179, parse_packet 182-203;
uvspeed_hexcast.py)

A packet is one json metadata line, a newline, and the base64 payload.
The JPEG codec is external (cv2.imencode / cv2.imdecode / PIL), so the
compressor is a parameter producing the payload bytes, and the decode
backends live in a Backend record: decCv2 models the cv2 strategy
(imdecode returns an Option, and may raise, for instance on an empty
buffer), decPil the PIL strategy (Image.open raises on undecodable input).
The capability flags mirror _has_cv2/_has_pil, probed once. The packet
timestamp time.time() is threaded in as a decimal (mantissa tm, te digits
after the point), since its serialized form is what round-trips. -/

/-- Decode-strategy record selected once at startup. -/
structure Backend where
  hasCv2 : Bool
  hasPil : Bool
  decCv2 : List Nat → Except Unit (Option Frame)
  decPil : List Nat → Except Unit Frame

/-- The version string of the source tree. -/
def HEXCAST_VERSION : String := "3.6.0"

/-- The metadata object serialized by make_packet, in insertion order. -/
def packet_meta (frame : Frame) (source_name : String) (sz : Nat)
    (tm : Int) (te : Nat) : Json :=
  Json.obj
    [("type", Json.str "frame"),
     ("v", Json.str HEXCAST_VERSION),
     ("src", Json.str source_name),
     ("w", Json.int (fshape1 frame)),
     ("h", Json.int (fshape0 frame)),
     ("sz", Json.int sz),
     ("t", Json.dec tm te)]

/-- make_packet: the dumped metadata, a newline, and the base64 payload. -/
def make_packet (compress : Frame → List Nat) (frame : Frame)
    (source_name : String) (tm : Int) (te : Nat) : String :=
  let jpg := compress frame
  String.mk
    (dumpJson (packet_meta frame source_name jpg.length tm te) ++
      '\n' :: b64encode jpg)

/-- Python str.split("\n", 1) on the underlying characters. -/
def splitOnceNl : List Char → Option (List Char × List Char)
  | [] => none
  | c :: cs =>
    if c = '\n' then some ([], cs)
    else (splitOnceNl cs).map (fun p => (c :: p.1, p.2))

/-- The metadata line of a raw packet (parts[0]). -/
def packetHead (raw : String) : List Char :=
  match splitOnceNl raw.data with
  | none => raw.data
  | some p => p.1

/-- The payload line of a raw packet (parts[1], absent without a newline). -/
def packetPayload (raw : String) : Option (List Char) :=
  match splitOnceNl raw.data with
  | none => none
  | some p => some p.2

/-- meta.get("type"): a dict lookup returning None when absent (Python
dicts built by json keep the last duplicate key), an AttributeError on any
non-dict value. -/
def metaGetType : Json → Except Unit Json
  | Json.obj kvs =>
    Except.ok ((kvs.reverse.find? (fun kv => kv.1 = "type")).elim Json.null Prod.snd)
  | _ => Except.error ()

/-- The body of parse_packet's try block; an Except.error is an exception
reaching the except handler. -/
def parse_packet_body (be : Backend) (raw : String) :
    Except Unit (Json × Option Frame) := do
  let meta ← match json_loads (String.mk (packetHead raw)) with
    | none => Except.error ()
    | some m => Except.ok m
  match packetPayload raw with
  | none => Except.ok (meta, none)
  | some payload => do
    let tv ← metaGetType meta
    let isFrame : Bool := match tv with | Json.str s => s = "frame" | _ => false
    if isFrame then do
      let jpg ← match b64decode payload with
        | none => Except.error ()
        | some bytes => Except.ok bytes
      if be.hasCv2 then do
        let fr ← be.decCv2 jpg
        Except.ok (meta, fr)
      else if be.hasPil then do
        let img ← be.decPil jpg
        Except.ok (meta, some img)
      else Except.ok (meta, none)
    else Except.ok (meta, none)

/-- parse_packet: any exception in the body yields the drop pair
(None, None); Python None is Json.null on the metadata side. -/
def parse_packet (be : Backend) (raw : String) : Json × Option Frame :=
  match parse_packet_body be raw with
  | Except.ok r => r
  | Except.error _ => (Json.null, none)

/-- A concrete decode backend for witnesses: cv2 present, its decoder
succeeding on every payload with a fixed 1-by-1 buffer. -/
def be_test : Backend :=
  ⟨true, false, fun _ => Except.ok (some [[(0, 0, 0)]]), fun _ => Except.error ()⟩

/-! ## Helper lemmas -/

theorem foldl_min_le_init {α : Type} [LinearOrder α] (xs : List α) (a : α) :
    xs.foldl min a ≤ a := by
  induction xs generalizing a with
  | nil => exact le_refl a
  | cons x t ih => exact le_trans (ih (min a x)) (min_le_left a x)

theorem foldl_min_le_mem {α : Type} [LinearOrder α] (xs : List α) (a : α) :
    ∀ x ∈ xs, xs.foldl min a ≤ x := by
  induction xs generalizing a with
  | nil => intro x hx; cases hx
  | cons y t ih =>
    intro x hx
    rcases List.mem_cons.mp hx with h | h
    · subst h
      exact le_trans (foldl_min_le_init t (min a x)) (min_le_right a x)
    · exact ih (min a y) x h

theorem foldl_min_mem {α : Type} [LinearOrder α] (xs : List α) (a : α) :
    xs.foldl min a = a ∨ xs.foldl min a ∈ xs := by
  induction xs generalizing a with
  | nil => exact Or.inl rfl
  | cons y t ih =>
    rcases ih (min a y) with h | h
    · rcases min_choice a y with hc | hc
      · exact Or.inl (by rw [List.foldl_cons, h, hc])
      · exact Or.inr (by rw [List.foldl_cons, h, hc]; exact List.mem_cons_self y t)
    · exact Or.inr (List.mem_cons_of_mem y h)

theorem foldl_max_init_le {α : Type} [LinearOrder α] (xs : List α) (a : α) :
    a ≤ xs.foldl max a := by
  induction xs generalizing a with
  | nil => exact le_refl a
  | cons x t ih => exact le_trans (le_max_left a x) (ih (max a x))

theorem foldl_max_mem_le {α : Type} [LinearOrder α] (xs : List α) (a : α) :
    ∀ x ∈ xs, x ≤ xs.foldl max a := by
  induction xs generalizing a with
  | nil => intro x hx; cases hx
  | cons y t ih =>
    intro x hx
    rcases List.mem_cons.mp hx with h | h
    · subst h
      exact le_trans (le_max_right a x) (foldl_max_init_le t (max a x))
    · exact ih (max a y) x h

theorem foldl_max_mem {α : Type} [LinearOrder α] (xs : List α) (a : α) :
    xs.foldl max a = a ∨ xs.foldl max a ∈ xs := by
  induction xs generalizing a with
  | nil => exact Or.inl rfl
  | cons y t ih =>
    rcases ih (max a y) with h | h
    · rcases max_choice a y with hc | hc
      · exact Or.inl (by rw [List.foldl_cons, h, hc])
      · exact Or.inr (by rw [List.foldl_cons, h, hc]; exact List.mem_cons_self y t)
    · exact Or.inr (List.mem_cons_of_mem y h)

theorem list_min_mem (l : List ℚ) (h : l ≠ []) : list_min l ∈ l := by
  match l with
  | [] => exact absurd rfl h
  | x :: xs =>
    rcases foldl_min_mem xs x with hm | hm
    · simp [list_min, hm]
    · exact List.mem_cons_of_mem x (by simpa [list_min] using hm)

theorem list_min_le (l : List ℚ) : ∀ x ∈ l, list_min l ≤ x := by
  match l with
  | [] => intro x hx; cases hx
  | y :: xs =>
    intro x hx
    rcases List.mem_cons.mp hx with h | h
    · subst h; exact foldl_min_le_init xs x
    · exact foldl_min_le_mem xs y x h

theorem list_max_mem (l : List ℚ) (h : l ≠ []) : list_max l ∈ l := by
  match l with
  | [] => exact absurd rfl h
  | x :: xs =>
    rcases foldl_max_mem xs x with hm | hm
    · simp [list_max, hm]
    · exact List.mem_cons_of_mem x (by simpa [list_max] using hm)

theorem list_max_ge (l : List ℚ) : ∀ x ∈ l, x ≤ list_max l := by
  match l with
  | [] => intro x hx; cases hx
  | y :: xs =>
    intro x hx
    rcases List.mem_cons.mp hx with h | h
    · subst h; exact foldl_max_init_le xs x
    · exact foldl_max_mem_le xs y x h

theorem ping_probes_none_iff (reply : Nat → Option ℚ) :
    ∀ fuel i, ping_probes reply i fuel = none ↔ ∃ k, k < fuel ∧ reply (i + k) = none := by
  intro fuel
  induction fuel with
  | zero => intro i; simp [ping_probes]
  | succ n ih =>
    intro i
    constructor
    · intro h
      by_cases hr : reply i = none
      · exact ⟨0, Nat.succ_pos n, by simpa using hr⟩
      · obtain ⟨rtt, hrtt⟩ := Option.ne_none_iff_exists'.mp hr
        rw [ping_probes, hrtt] at h
        have hnone : ping_probes reply (i + 1) n = none := by
          cases hp : ping_probes reply (i + 1) n with
          | none => rfl
          | some ts => rw [hp] at h; simp at h
        obtain ⟨k, hk, hrk⟩ := (ih (i + 1)).mp hnone
        exact ⟨k + 1, by omega, by rw [show i + (k + 1) = i + 1 + k by omega]; exact hrk⟩
    · rintro ⟨k, hk, hrk⟩
      match k with
      | 0 =>
        have h0 : reply i = none := by simpa using hrk
        rw [ping_probes, h0]
      | Nat.succ k2 =>
        rw [ping_probes]
        cases hr : reply i with
        | none => rfl
        | some rtt =>
          have : ping_probes reply (i + 1) n = none :=
            (ih (i + 1)).mpr ⟨k2, by omega, by rw [show i + 1 + k2 = i + (k2 + 1) by omega]; exact hrk⟩
          rw [this]
          rfl

theorem ping_probes_length (reply : Nat → Option ℚ) :
    ∀ fuel i ts, ping_probes reply i fuel = some ts → ts.length = fuel := by
  intro fuel
  induction fuel with
  | zero => intro i ts h; simp [ping_probes] at h; simp [← h]
  | succ n ih =>
    intro i ts h
    rw [ping_probes] at h
    cases hr : reply i with
    | none => rw [hr] at h; simp at h
    | some rtt =>
      rw [hr] at h
      cases hp : ping_probes reply (i + 1) n with
      | none => rw [hp] at h; simp at h
      | some ts2 =>
        rw [hp] at h
        simp at h
        rw [← h]
        simp [ih (i + 1) ts2 hp]

/-! ## Claim theorems -/

/-- C3: for a Broadcaster whose client set is A, B, C at the start of a
fan-out round, if the send to B fails while A and C succeed, then A and C
still receive that round's packet, B does not, B is removed only after the
round completes, and the client set iterated by the next round is exactly
A, C. -/
theorem broadcast_round_prunes_only_failed_peer {Peer : Type} [DecidableEq Peer]
    (A B C : Peer) (sendOk : Peer → Bool)
    (hAB : A ≠ B) (hBC : B ≠ C) (_hAC : A ≠ C)
    (hA : sendOk A = true) (hB : sendOk B = false) (hC : sendOk C = true) :
    fan_out [A, B, C] sendOk = ([A, C], [B]) ∧
    A ∈ (broadcast_round [A, B, C] sendOk).1 ∧
    C ∈ (broadcast_round [A, B, C] sendOk).1 ∧
    B ∉ (broadcast_round [A, B, C] sendOk).1 ∧
    (broadcast_round [A, B, C] sendOk).2 = [A, C] := by
  have hCB : C ≠ B := Ne.symm hBC
  have hfan : fan_out [A, B, C] sendOk = ([A, C], [B]) := by
    simp [fan_out, hA, hB, hC]
  refine ⟨hfan, ?_, ?_, ?_, ?_⟩
  · simp [broadcast_round, hfan]
  · simp [broadcast_round, hfan]
  · simp [broadcast_round, hfan]
    exact ⟨fun h => absurd h.symm hAB, fun h => absurd h hBC⟩
  · simp [broadcast_round, hfan, List.filter, hAB, hCB]

/-- C3 witness: the theorem applied to the concrete peers 0, 1, 2 with the
send to 1 failing. -/
theorem broadcast_round_prunes_only_failed_peer_witness :
    fan_out [0, 1, 2] (fun p : Nat => decide (p ≠ 1)) = ([0, 2], [1]) ∧
    0 ∈ (broadcast_round [0, 1, 2] (fun p : Nat => decide (p ≠ 1))).1 ∧
    2 ∈ (broadcast_round [0, 1, 2] (fun p : Nat => decide (p ≠ 1))).1 ∧
    1 ∉ (broadcast_round [0, 1, 2] (fun p : Nat => decide (p ≠ 1))).1 ∧
    (broadcast_round [0, 1, 2] (fun p : Nat => decide (p ≠ 1))).2 = [0, 2] :=
  broadcast_round_prunes_only_failed_peer 0 1 2 (fun p : Nat => decide (p ≠ 1))
    (by decide) (by decide) (by decide) (by decide) (by decide) (by decide)

/-- C4 counterexample: with three probes of which the second times out,
the claim says probes one and three still complete and statistics are
reported over the two completed samples with sample count 2; but do_ping
propagates the TimeoutError to the outer except handler and the whole
measurement aborts with no statistics at all. -/
theorem do_ping_timeout_aborts_counterexample :
    (fun i => if i = 0 then some (10 : ℚ) else if i = 2 then some 12 else none) 0
        = some 10 ∧
    (fun i => if i = 0 then some (10 : ℚ) else if i = 2 then some 12 else none) 1
        = none ∧
    (fun i => if i = 0 then some (10 : ℚ) else if i = 2 then some 12 else none) 2
        = some 12 ∧
    do_ping (fun i => if i = 0 then some (10 : ℚ) else if i = 2 then some 12 else none) 3
      = PingResult.error := by
  refine ⟨rfl, rfl, rfl, ?_⟩
  rfl

/-- C4 amended: a probe whose reply does not arrive within the bound
aborts the whole measurement rather than being skipped: do_ping reports no
statistics exactly when some probe times out (or there are no probes);
statistics are only reported when every probe completes. -/
theorem do_ping_error_iff_some_timeout (reply : Nat → Option ℚ) (count : Nat) :
    do_ping reply count = PingResult.error ↔
      count = 0 ∨ ∃ i, i < count ∧ reply i = none := by
  unfold do_ping
  cases hp : ping_probes reply 0 count with
  | none =>
    simp only [true_iff]
    obtain ⟨k, hk, hrk⟩ := (ping_probes_none_iff reply count 0).mp hp
    exact Or.inr ⟨k, hk, by simpa using hrk⟩
  | some times =>
    have hlen : times.length = count := ping_probes_length reply count 0 times hp
    by_cases hc : count = 0
    · subst hc
      simp [hlen]
    · have hne : ¬times.length = 0 := by omega
      simp only [hne, if_false]
      constructor
      · intro h; cases h
      · intro h
        rcases h with h | ⟨i, hi, hri⟩
        · exact absurd h hc
        · have : ping_probes reply 0 count = none :=
            (ping_probes_none_iff reply count 0).mpr ⟨i, hi, by simpa using hri⟩
          rw [hp] at this
          cases this

/-- C8: whenever do_ping reports statistics, the reported average is the
arithmetic mean of the completed samples, min and max are the least and
greatest sample, and jitter is max minus min. -/
theorem do_ping_stats_formulas (reply : Nat → Option ℚ) (count reported : Nat)
    (ts : List ℚ) (avg mn mx j : ℚ)
    (h : do_ping reply count = PingResult.stats reported ts avg mn mx j) :
    ts ≠ [] ∧ avg = ts.sum / ts.length ∧
    mn ∈ ts ∧ (∀ x ∈ ts, mn ≤ x) ∧
    mx ∈ ts ∧ (∀ x ∈ ts, x ≤ mx) ∧ j = mx - mn := by
  unfold do_ping at h
  split at h
  · exact absurd h (by simp)
  · split at h
    · exact absurd h (by simp)
    · rename_i times heq hz
      injection h with h1 h2 h3 h4 h5 h6
      subst h1 h2 h3 h4 h5 h6
      have hne : times ≠ [] := by
        intro hn; rw [hn] at hz; exact hz rfl
      exact ⟨hne, rfl, list_min_mem times hne, list_min_le times,
        list_max_mem times hne, list_max_ge times, rfl⟩

/-- C8 witness: the theorem applied to two completed probes with
round-trip times 4 and 10, whose reported statistics are
avg 7, min 4, max 10, jitter 6. -/
theorem do_ping_stats_formulas_witness :
    [(4 : ℚ), 10] ≠ [] ∧ (7 : ℚ) = [(4 : ℚ), 10].sum / ([(4 : ℚ), 10].length) ∧
    (4 : ℚ) ∈ [(4 : ℚ), 10] ∧ (∀ x ∈ [(4 : ℚ), 10], (4 : ℚ) ≤ x) ∧
    (10 : ℚ) ∈ [(4 : ℚ), 10] ∧ (∀ x ∈ [(4 : ℚ), 10], x ≤ (10 : ℚ)) ∧
    (6 : ℚ) = (10 : ℚ) - 4 :=
  do_ping_stats_formulas (fun i => if i = 0 then some 4 else some 10) 2 2
    [4, 10] 7 4 10 6
    (by norm_num [do_ping, ping_probes, list_min, list_max])

/-- C9: on byte-valued channels, thermal_map returns channels within
0..255, and its output depends only on the integer luminance of the
input: two pixels of equal luminance map to the same thermal color. -/
theorem thermal_map_range_and_luma_congruence :
    (∀ r g b : Nat, r ≤ 255 → g ≤ 255 → b ≤ 255 →
      (thermal_map r g b).1 ≤ 255 ∧ (thermal_map r g b).2.1 ≤ 255 ∧
        (thermal_map r g b).2.2 ≤ 255) ∧
    (∀ r1 g1 b1 r2 g2 b2 : Nat, luma r1 g1 b1 = luma r2 g2 b2 →
      thermal_map r1 g1 b1 = thermal_map r2 g2 b2) := by
  constructor
  · intro r g b _hr _hg _hb
    unfold thermal_map
    dsimp only
    split_ifs <;> refine ⟨?_, ?_, ?_⟩ <;> (try dsimp only) <;>
      (try simp only [Nat.min_def, Nat.max_def]) <;> (try split_ifs) <;> omega
  · intro r1 g1 b1 r2 g2 b2 h
    unfold thermal_map
    rw [h]

/-- C9 witness: the range part at the pixel (255, 128, 7) and the
congruence part at the equal-luminance pixels (1, 0, 0) and (0, 0, 1). -/
theorem thermal_map_range_and_luma_congruence_witness :
    ((thermal_map 255 128 7).1 ≤ 255 ∧ (thermal_map 255 128 7).2.1 ≤ 255 ∧
      (thermal_map 255 128 7).2.2 ≤ 255) ∧
    thermal_map 1 0 0 = thermal_map 0 0 1 :=
  ⟨thermal_map_range_and_luma_congruence.1 255 128 7 (by decide) (by decide) (by decide),
   thermal_map_range_and_luma_congruence.2 1 0 0 0 0 1 (by decide)⟩

/-- C5 counterexample: a serve-role bind failure on an in-use port is a
fatal bind failure, yet the process exit code is 0, not non-zero: after
printing the port and remedies, main_serve returns normally and run_serve
falls through to a normal exit. -/
theorem serve_bind_failure_exits_zero_counterexample :
    (run_serve_exit 9876 0 ServeEvent.bindPortInUse).2 = 0 ∧
    Msg.errPortInUse 9876 ∈ (run_serve_exit 9876 0 ServeEvent.bindPortInUse).1 := by
  exact ⟨rfl, by simp [run_serve_exit]⟩

/-- C5 amended: a viewer connect failure exits non-zero after printing the
failing host and a remedy; serve and receive bind failures on an in-use
port print the failing port together with concrete remedies (an alternate
port and killing the conflicting process) but then exit 0; a normal quit
and an interrupt exit 0; a camera-open failure exits 1; none of these
paths print a raw stack trace (every printed message is one of the
modelled remedy/error lines). -/
theorem exit_codes_and_messages (port camIdx : Nat) (host : String) :
    (run_connect_exit host ConnectEvent.connectFail).2 ≠ 0 ∧
    Msg.connFailed host ∈ (run_connect_exit host ConnectEvent.connectFail).1 ∧
    Msg.remedyIsServeRunning host ∈ (run_connect_exit host ConnectEvent.connectFail).1 ∧
    (run_serve_exit port camIdx ServeEvent.bindPortInUse).2 = 0 ∧
    Msg.errPortInUse port ∈ (run_serve_exit port camIdx ServeEvent.bindPortInUse).1 ∧
    Msg.remedyAltPort (port + 1) ∈ (run_serve_exit port camIdx ServeEvent.bindPortInUse).1 ∧
    Msg.remedyKillProcess port ∈ (run_serve_exit port camIdx ServeEvent.bindPortInUse).1 ∧
    (run_receive_exit port ReceiveEvent.bindPortInUse).2 = 0 ∧
    Msg.errPortInUse port ∈ (run_receive_exit port ReceiveEvent.bindPortInUse).1 ∧
    Msg.remedyAltPort (port + 1) ∈ (run_receive_exit port ReceiveEvent.bindPortInUse).1 ∧
    (run_serve_exit port camIdx ServeEvent.cameraFail).2 = 1 ∧
    (run_serve_exit port camIdx ServeEvent.interrupt).2 = 0 ∧
    (run_connect_exit host ConnectEvent.quitKey).2 = 0 ∧
    (run_receive_exit port ReceiveEvent.quitKey).2 = 0 := by
  refine ⟨?_, ?_, ?_, rfl, ?_, ?_, ?_, rfl, ?_, ?_, rfl, rfl, rfl, rfl⟩ <;>
    simp [run_connect_exit, run_serve_exit, run_receive_exit]

/-- C7: both renderers terminate on every buffer and emit exactly rows
lines; the i-th line is the concatenation of that row's cell list — one
character cell per column, so exactly cols cells — followed by the reset
escape, under every combination of thermal mode, palette, brightness and
decode backend. -/
theorem render_frame_grid_dimensions (get_pixel : Nat → Nat → Rgb) (is_pil : Bool)
    (cols rows : Nat) (thermal : Bool) (brightness : ℚ) :
    (render_frame_truecolor get_pixel is_pil cols rows thermal brightness =
        String.intercalate "\n"
          (render_frame_truecolor_lines get_pixel is_pil cols rows thermal brightness) ∧
      (render_frame_truecolor_lines get_pixel is_pil cols rows thermal brightness).length
        = rows ∧
      (∀ i, i < rows →
        (render_frame_truecolor_lines get_pixel is_pil cols rows thermal brightness).getD i ""
          = String.join (truecolor_row_cells get_pixel is_pil cols rows thermal brightness i)
              ++ RESET ∧
        (truecolor_row_cells get_pixel is_pil cols rows thermal brightness i).length
          = cols)) ∧
    (render_frame_ascii get_pixel is_pil cols rows thermal brightness =
        String.intercalate "\n"
          (render_frame_ascii_lines get_pixel is_pil cols rows thermal brightness) ∧
      (render_frame_ascii_lines get_pixel is_pil cols rows thermal brightness).length
        = rows ∧
      (∀ y, y < rows →
        (render_frame_ascii_lines get_pixel is_pil cols rows thermal brightness).getD y ""
          = String.join (ascii_row_cells get_pixel is_pil cols thermal brightness y)
              ++ RESET ∧
        (ascii_row_cells get_pixel is_pil cols thermal brightness y).length = cols)) := by
  refine ⟨⟨rfl, by simp [render_frame_truecolor_lines], ?_⟩,
    ⟨rfl, by simp [render_frame_ascii_lines], ?_⟩⟩
  · intro i hi
    constructor
    · simp [render_frame_truecolor_lines, List.getD_eq_getElem?_getD,
        List.getElem?_map, List.getElem?_range hi]
    · simp [truecolor_row_cells]
  · intro y hy
    constructor
    · simp [render_frame_ascii_lines, List.getD_eq_getElem?_getD,
        List.getElem?_map, List.getElem?_range hy]
    · simp [ascii_row_cells]

/-- Shape predicate for a pixel buffer: h rows of w pixels. -/
def shapeOk (w h : Nat) (f : Frame) : Prop :=
  f.length = h ∧ ∀ row ∈ f, row.length = w

theorem shapeOk_replicate (w h : Nat) : shapeOk w h (List.replicate h (List.replicate w ((0, 0, 0) : Rgb))) := by
  constructor
  · simp
  · intro row hrow
    rw [List.eq_of_mem_replicate hrow]
    simp

theorem shapeOk_write_cols (w h : Nat) (img : Frame) (x0 x1 : Nat) (v : Rgb)
    (hs : shapeOk w h img) : shapeOk w h (write_cols img x0 x1 v) := by
  obtain ⟨h1, h2⟩ := hs
  constructor
  · simpa [write_cols] using h1
  · intro row hrow
    simp only [write_cols, List.mem_map] at hrow
    obtain ⟨r, hr, rfl⟩ := hrow
    simpa using h2 r hr

theorem shapeOk_mapIdx {g : Nat → List Rgb → List Rgb} (w h : Nat) (img : Frame)
    (hs : shapeOk w h img) (hg : ∀ y row, row ∈ img → row.length = w → (g y row).length = w) :
    shapeOk w h (img.mapIdx g) := by
  obtain ⟨h1, h2⟩ := hs
  constructor
  · simpa using h1
  · intro row hrow
    rw [List.mapIdx_eq_enum_map] at hrow
    simp only [List.mem_map] at hrow
    obtain ⟨⟨y, r⟩, hr, rfl⟩ := hrow
    have hrm : r ∈ img :=
      List.getElem?_mem (List.mk_mem_enum_iff_getElem?.mp hr)
    exact hg y r hrm (h2 r hrm)

theorem shapeOk_fold_write (w h : Nat) (l : List Nat) (f : Nat → Nat) (g : Nat → Nat)
    (c : Nat → Rgb) (img : Frame) (hs : shapeOk w h img) :
    shapeOk w h (l.foldl (fun acc i => write_cols acc (f i) (g i) (c i)) img) := by
  induction l generalizing img with
  | nil => exact hs
  | cons i t ih => exact ih _ (shapeOk_write_cols w h img (f i) (g i) (c i) hs)

/-- C10: generate_test_pattern is a pure function of (w, h, frame_num):
it returns an h-by-w buffer of 3-channel pixels, and equal arguments give
identical buffers (the embedding takes no other inputs, mirroring the
source, which reads no clock and no mutable global). -/
theorem generate_test_pattern_shape_and_determinism (w h n : Nat)
    (_hw : 1 ≤ w) (_hh : 1 ≤ h) :
    ((generate_test_pattern w h n).length = h ∧
      ∀ row ∈ generate_test_pattern w h n, row.length = w) ∧
    ∀ w2 h2 n2, w = w2 → h = h2 → n = n2 →
      generate_test_pattern w h n = generate_test_pattern w2 h2 n2 := by
  constructor
  · have hshape : shapeOk w h (generate_test_pattern w h n) := by
      unfold generate_test_pattern
      dsimp only
      apply shapeOk_mapIdx
      · apply shapeOk_mapIdx
        · exact shapeOk_fold_write w h (List.range 8) _ _ _ _ (shapeOk_replicate w h)
        · intro y row _ hlen
          split
          · simpa using hlen
          · exact hlen
      · intro y row _ hlen
        split
        · simpa using hlen
        · exact hlen
    exact hshape
  · intro w2 h2 n2 hw2 hh2 hn2
    subst hw2 hh2 hn2
    rfl

/-- C10 witness: the theorem applied at w = 9, h = 5, frame 2. -/
theorem generate_test_pattern_shape_witness :
    (((generate_test_pattern 9 5 2).length = 5 ∧
      ∀ row ∈ generate_test_pattern 9 5 2, row.length = 9) ∧
    ∀ w2 h2 n2, 9 = w2 → 5 = h2 → 2 = n2 →
      generate_test_pattern 9 5 2 = generate_test_pattern w2 h2 n2) :=
  generate_test_pattern_shape_and_determinism 9 5 2 (by decide) (by decide)

/-! ## JSON round-trip lemmas -/

theorem char_toNat_ofNat_valid (n : Nat) (h : n.isValidChar) :
    (Char.ofNat n).toNat = n := by
  unfold Char.ofNat
  rw [dif_pos h]
  rfl

theorem char_valid_ranges (c : Char) :
    c.toNat < 55296 ∨ (57343 < c.toNat ∧ c.toNat < 1114112) := c.valid

theorem hexVal_hexDigitChar : ∀ d : Nat, d < 16 → hexVal (hexDigitChar d) = some d := by
  decide

theorem parseHex4_hex4 (n : Nat) (hn : n < 65536) (rest : List Char) :
    parseHex4 (hex4 n ++ rest) = some (n, rest) := by
  have h1 := hexVal_hexDigitChar (n / 4096 % 16) (by omega)
  have h2 := hexVal_hexDigitChar (n / 256 % 16) (by omega)
  have h3 := hexVal_hexDigitChar (n / 16 % 16) (by omega)
  have h4 := hexVal_hexDigitChar (n % 16) (by omega)
  simp only [hex4, List.cons_append, List.nil_append, parseHex4, h1, h2, h3, h4,
    Option.bind_eq_bind, Option.some_bind, Option.some.injEq, Prod.mk.injEq]
  exact ⟨by omega, trivial⟩

theorem parseStringBody_escapeChar (c : Char) (tail : List Char) (fuel : Nat) :
    parseStringBody (fuel + 1) (escapeChar c ++ tail) =
      consFst c (parseStringBody fuel tail) := by
  by_cases h1 : c = '"'
  · subst h1
    rw [show escapeChar '"' = ['\\', '"'] from by decide]
    simp only [List.cons_append, List.nil_append]
    rw [parseStringBody]
    simp
  by_cases h2 : c = '\\'
  · subst h2
    rw [show escapeChar '\\' = ['\\', '\\'] from by decide]
    simp only [List.cons_append, List.nil_append]
    rw [parseStringBody]
    simp
  by_cases h3 : c = '\n'
  · subst h3
    rw [show escapeChar '\n' = ['\\', 'n'] from by decide]
    simp only [List.cons_append, List.nil_append]
    rw [parseStringBody]
    simp
  by_cases h4 : c = '\t'
  · subst h4
    rw [show escapeChar '\t' = ['\\', 't'] from by decide]
    simp only [List.cons_append, List.nil_append]
    rw [parseStringBody]
    simp
  by_cases h5 : c = '\r'
  · subst h5
    rw [show escapeChar '\r' = ['\\', 'r'] from by decide]
    simp only [List.cons_append, List.nil_append]
    rw [parseStringBody]
    simp
  by_cases h6 : c.toNat = 8
  · have hc : c = Char.ofNat 8 := by
      rw [← h6, Char.ofNat_toNat]
    subst hc
    rw [show escapeChar (Char.ofNat 8) = ['\\', 'b'] from by decide]
    simp only [List.cons_append, List.nil_append]
    rw [parseStringBody]
    simp
  by_cases h7 : c.toNat = 12
  · have hc : c = Char.ofNat 12 := by
      rw [← h7, Char.ofNat_toNat]
    subst hc
    rw [show escapeChar (Char.ofNat 12) = ['\\', 'f'] from by decide]
    simp only [List.cons_append, List.nil_append]
    rw [parseStringBody]
    simp
  by_cases h8 : c.toNat < 32
  · have hesc : escapeChar c = '\\' :: 'u' :: hex4 c.toNat := by
      rw [escapeChar]
      rw [if_neg h1, if_neg h2, if_neg h3, if_neg h4, if_neg h5, if_neg h6,
        if_neg h7, if_pos h8]
    rw [hesc]
    have hp := parseHex4_hex4 c.toNat (by omega) tail
    have hlo : ¬(55296 ≤ c.toNat ∧ c.toNat < 56320) := by omega
    have hhi : ¬(56320 ≤ c.toNat ∧ c.toNat < 57344) := by omega
    simp only [List.cons_append]
    rw [parseStringBody]
    simp [hp, hlo, hhi, Char.ofNat_toNat]
  by_cases h9 : c.toNat < 127
  · have hesc : escapeChar c = [c] := by
      rw [escapeChar]
      rw [if_neg h1, if_neg h2, if_neg h3, if_neg h4, if_neg h5, if_neg h6,
        if_neg h7, if_neg h8, if_pos h9]
    rw [hesc]
    simp only [List.cons_append, List.nil_append]
    match tail with
    | [] =>
      rw [parseStringBody.eq_3, if_neg h1, if_neg h2, if_neg h8]
    | e :: cs2 =>
      rw [parseStringBody.eq_4, if_neg h1, if_neg h2, if_neg h8]
  by_cases h10 : c.toNat < 65536
  · have hesc : escapeChar c = '\\' :: 'u' :: hex4 c.toNat := by
      rw [escapeChar]
      rw [if_neg h1, if_neg h2, if_neg h3, if_neg h4, if_neg h5, if_neg h6,
        if_neg h7, if_neg h8, if_neg h9, if_pos h10]
    rw [hesc]
    have hp := parseHex4_hex4 c.toNat (by omega) tail
    have hns : c.toNat < 55296 ∨ 57343 < c.toNat := by
      rcases char_valid_ranges c with h | h
      · exact Or.inl h
      · exact Or.inr h.1
    have hlo : ¬(55296 ≤ c.toNat ∧ c.toNat < 56320) := by omega
    have hhi : ¬(56320 ≤ c.toNat ∧ c.toNat < 57344) := by omega
    simp only [List.cons_append]
    rw [parseStringBody]
    simp [hp, hlo, hhi, Char.ofNat_toNat]
  · have hlt : c.toNat < 1114112 := by
      rcases char_valid_ranges c with h | h
      · omega
      · exact h.2
    have hesc : escapeChar c =
        '\\' :: 'u' :: hex4 (55296 + (c.toNat - 65536) / 1024) ++
          '\\' :: 'u' :: hex4 (56320 + (c.toNat - 65536) % 1024) := by
      rw [escapeChar]
      rw [if_neg h1, if_neg h2, if_neg h3, if_neg h4, if_neg h5, if_neg h6,
        if_neg h7, if_neg h8, if_neg h9, if_neg h10]
    rw [hesc]
    have hmod : (c.toNat - 65536) % 1024 < 1024 :=
      Nat.mod_lt (c.toNat - 65536) (by omega)
    have hhiv : 55296 + (c.toNat - 65536) / 1024 < 65536 := by omega
    have hlov : 56320 + (c.toNat - 65536) % 1024 < 65536 := by omega
    have hp1 := parseHex4_hex4 (55296 + (c.toNat - 65536) / 1024) hhiv
      ('\\' :: 'u' :: (hex4 (56320 + (c.toNat - 65536) % 1024) ++ tail))
    have hp2 := parseHex4_hex4 (56320 + (c.toNat - 65536) % 1024) hlov tail
    have hin : 55296 ≤ 55296 + (c.toNat - 65536) / 1024 ∧
        55296 + (c.toNat - 65536) / 1024 < 56320 := by omega
    have hin2 : 56320 ≤ 56320 + (c.toNat - 65536) % 1024 ∧
        56320 + (c.toNat - 65536) % 1024 < 57344 := by omega
    have harith : 65536 + (55296 + (c.toNat - 65536) / 1024 - 55296) * 1024 +
        (56320 + (c.toNat - 65536) % 1024 - 56320) = c.toNat := by omega
    simp only [List.cons_append, List.append_assoc]
    rw [parseStringBody]
    simp [hp1, hp2, hin, hin2, harith, Char.ofNat_toNat]
    rw [show 65536 + (c.toNat - 65536) / 1024 * 1024 + (c.toNat - 65536) % 1024
        = c.toNat from by omega, Char.ofNat_toNat]

theorem escapeChar_ne_nil (c : Char) : escapeChar c ≠ [] := by
  intro h
  have hstep := parseStringBody_escapeChar c ['"'] 0
  rw [h, List.nil_append, parseStringBody.eq_3] at hstep
  simp [parseStringBody, consFst] at hstep

theorem escapeChar_length_pos (c : Char) : 1 ≤ (escapeChar c).length :=
  Nat.succ_le_of_lt (List.length_pos.mpr (escapeChar_ne_nil c))

theorem escaped_length_ge (l : List Char) :
    l.length ≤ ((l.map escapeChar).flatten).length := by
  induction l with
  | nil => simp
  | cons c t ih =>
    simp only [List.map_cons, List.flatten_cons, List.length_append, List.length_cons]
    have := escapeChar_length_pos c
    omega

theorem parseStringBody_escaped (l : List Char) :
    ∀ (fuel : Nat) (tail : List Char), l.length < fuel →
      parseStringBody fuel ((l.map escapeChar).flatten ++ '"' :: tail) =
        some (l, tail) := by
  induction l with
  | nil =>
    intro fuel tail hf
    match fuel, hf with
    | fuel + 1, _ =>
      simp only [List.map_nil, List.flatten_nil, List.nil_append]
      match tail with
      | [] => rw [parseStringBody.eq_3]; simp
      | e :: cs2 => rw [parseStringBody.eq_4]; simp
  | cons c t ih =>
    intro fuel tail hf
    match fuel, hf with
    | fuel + 1, hf =>
      simp only [List.map_cons, List.flatten_cons, List.append_assoc]
      rw [parseStringBody_escapeChar c _ fuel]
      rw [ih fuel tail (by simpa using Nat.lt_of_succ_lt_succ hf)]
      rfl

theorem parseValue_dumpString (s : String) (rest : List Char) (fuel : Nat) :
    parseValue (fuel + 1) (dumpString s ++ rest) = some (Json.str s, rest) := by
  have hcs : dumpString s ++ rest =
      '"' :: ((s.data.map escapeChar).flatten ++ '"' :: rest) := by
    simp [dumpString]
  have hsk : skipWs ('"' :: ((s.data.map escapeChar).flatten ++ '"' :: rest)) =
      '"' :: ((s.data.map escapeChar).flatten ++ '"' :: rest) := by
    rw [skipWs]
    simp
  have hlen : s.data.length < ((s.data.map escapeChar).flatten ++ '"' :: rest).length + 1 := by
    have := escaped_length_ge s.data
    simp only [List.length_append, List.length_cons]
    omega
  have hbody := parseStringBody_escaped s.data
    (((s.data.map escapeChar).flatten ++ '"' :: rest).length + 1) rest hlen
  rw [hcs, parseValue, hsk]
  simp only [hbody]
  cases s
  rfl

theorem digit_char_toNat : ∀ d : Nat, d < 10 → (Char.ofNat (48 + d)).toNat = 48 + d := by
  decide

theorem natDigits_digits (n : Nat) : ∀ c ∈ natDigits n, 48 ≤ c.toNat ∧ c.toNat ≤ 57 := by
  induction n using Nat.strongRecOn with
  | ind n ih =>
    intro c hc
    rw [natDigits] at hc
    by_cases h : n < 10
    · rw [dif_pos h] at hc
      simp only [List.mem_singleton] at hc
      subst hc
      rw [digit_char_toNat n h]
      omega
    · rw [dif_neg h] at hc
      rcases List.mem_append.mp hc with h2 | h2
      · exact ih (n / 10) (Nat.div_lt_self (by omega) (by omega)) c h2
      · simp only [List.mem_singleton] at h2
        subst h2
        rw [digit_char_toNat (n % 10) (Nat.mod_lt n (by omega))]
        have := Nat.mod_lt n (show 0 < 10 by omega)
        omega

theorem natDigits_ne_nil (n : Nat) : natDigits n ≠ [] := by
  rw [natDigits]
  by_cases h : n < 10
  · rw [dif_pos h]; simp
  · rw [dif_neg h]; simp

theorem natDigits_head_pos (n : Nat) (hn : n ≠ 0) :
    ∃ c cs, natDigits n = c :: cs ∧ 49 ≤ c.toNat ∧ c.toNat ≤ 57 := by
  induction n using Nat.strongRecOn with
  | ind n ih =>
    rw [natDigits]
    by_cases h : n < 10
    · rw [dif_pos h]
      exact ⟨Char.ofNat (48 + n), [], rfl, by rw [digit_char_toNat n h]; omega,
        by rw [digit_char_toNat n h]; omega⟩
    · rw [dif_neg h]
      obtain ⟨c, cs, heq, h1, h2⟩ :=
        ih (n / 10) (Nat.div_lt_self (by omega) (by omega)) (by omega)
      exact ⟨c, cs ++ [Char.ofNat (48 + n % 10)], by rw [heq]; rfl, h1, h2⟩

theorem foldl_digits_init (b : List Char) :
    ∀ init : Nat, List.foldl (fun acc c => acc * 10 + (c.toNat - 48)) init b =
      init * 10 ^ b.length + digitsToNat b := by
  induction b with
  | nil => intro init; simp [digitsToNat]
  | cons c t ih =>
    intro init
    have h1 := ih (init * 10 + (c.toNat - 48))
    simp only [List.foldl_cons, digitsToNat, List.length_cons] at *
    rw [h1, ih (0 * 10 + (c.toNat - 48))]
    ring

theorem digitsToNat_append (a b : List Char) :
    digitsToNat (a ++ b) = digitsToNat a * 10 ^ b.length + digitsToNat b := by
  unfold digitsToNat
  rw [List.foldl_append]
  exact foldl_digits_init b _

theorem digitsToNat_natDigits (n : Nat) : digitsToNat (natDigits n) = n := by
  induction n using Nat.strongRecOn with
  | ind n ih =>
    rw [natDigits]
    by_cases h : n < 10
    · rw [dif_pos h]
      simp [digitsToNat, digit_char_toNat n h]
    · rw [dif_neg h]
      rw [digitsToNat_append, ih (n / 10) (Nat.div_lt_self (by omega) (by omega))]
      have hm : digitsToNat [Char.ofNat (48 + n % 10)] = n % 10 := by
        simp [digitsToNat, digit_char_toNat (n % 10) (Nat.mod_lt n (by omega))]
      rw [hm]
      simp only [List.length_singleton, pow_one]
      omega

theorem natDigits_length_le (e : Nat) :
    ∀ k : Nat, k < 10 ^ e → 1 ≤ e → (natDigits k).length ≤ e := by
  induction e with
  | zero => omega
  | succ m ih =>
    intro k hk _
    rw [natDigits]
    by_cases h : k < 10
    · rw [dif_pos h]
      simp only [List.length_singleton]
      omega
    · rw [dif_neg h]
      have hm : 1 ≤ m := by
        by_contra hc
        have : m = 0 := by omega
        subst this
        simp at hk
        omega
      have hdiv : k / 10 < 10 ^ m := by
        rw [pow_succ] at hk
        omega
      have := ih (k / 10) hdiv hm
      simp only [List.length_append, List.length_singleton]
      omega

theorem digitsToNat_replicate_zero (z : Nat) :
    digitsToNat (List.replicate z '0') = 0 := by
  induction z with
  | zero => rfl
  | succ m ih =>
    have : List.replicate (m + 1) '0' = '0' :: List.replicate m '0' := rfl
    rw [this]
    unfold digitsToNat at *
    simp only [List.foldl_cons]
    have h0 : (0 : Nat) * 10 + (Char.toNat '0' - 48) = 0 := by decide
    rw [h0]
    exact ih

theorem natDigitsPad_digits (e k : Nat) :
    ∀ c ∈ natDigitsPad e k, 48 ≤ c.toNat ∧ c.toNat ≤ 57 := by
  intro c hc
  unfold natDigitsPad at hc
  rcases List.mem_append.mp hc with h | h
  · rw [List.eq_of_mem_replicate h]
    decide
  · exact natDigits_digits k c h

theorem natDigitsPad_length (e k : Nat) (hk : k < 10 ^ e) (he : 1 ≤ e) :
    (natDigitsPad e k).length = e := by
  unfold natDigitsPad
  have := natDigits_length_le e k hk he
  simp only [List.length_append, List.length_replicate]
  omega

theorem digitsToNat_natDigitsPad (e k : Nat) :
    digitsToNat (natDigitsPad e k) = k := by
  unfold natDigitsPad
  rw [digitsToNat_append, digitsToNat_replicate_zero, digitsToNat_natDigits]
  simp

theorem natDigitsPad_ne_nil (e k : Nat) : natDigitsPad e k ≠ [] := by
  unfold natDigitsPad
  intro h
  exact natDigits_ne_nil k (List.append_eq_nil.mp h).2

theorem numBoundary_head_not_digit (rest : List Char) (hb : numBoundary rest) :
    ∀ c cs2, rest = c :: cs2 → ¬(48 ≤ c.toNat ∧ c.toNat ≤ 57) := by
  intro c cs2 hr
  subst hr
  exact hb.1

theorem spanDigits_exact (ds : List Char) :
    ∀ rest : List Char, (∀ c ∈ ds, 48 ≤ c.toNat ∧ c.toNat ≤ 57) →
      (∀ c cs2, rest = c :: cs2 → ¬(48 ≤ c.toNat ∧ c.toNat ≤ 57)) →
      spanDigits (ds ++ rest) = (ds, rest) := by
  induction ds with
  | nil =>
    intro rest _ hrest
    match rest with
    | [] => rfl
    | c :: cs2 =>
      rw [List.nil_append, spanDigits]
      rw [if_neg (hrest c cs2 rfl)]
  | cons d t ih =>
    intro rest hds hrest
    rw [List.cons_append, spanDigits]
    rw [if_pos (hds d (List.mem_cons_self d t))]
    rw [ih rest (fun c hc => hds c (List.mem_cons_of_mem d hc)) hrest]

theorem parseIntPart_natDigits (n : Nat) (rest : List Char)
    (hrest : ∀ c cs2, rest = c :: cs2 → ¬(48 ≤ c.toNat ∧ c.toNat ≤ 57)) :
    parseIntPart (natDigits n ++ rest) = some (natDigits n, rest) := by
  by_cases h0 : n = 0
  · subst h0
    rw [show natDigits 0 = ['0'] from by rw [natDigits]; rfl]
    rw [List.cons_append, List.nil_append, parseIntPart]
    rw [if_pos rfl]
  · obtain ⟨c, cs, heq, h1, h2⟩ := natDigits_head_pos n h0
    rw [heq, List.cons_append, parseIntPart]
    have hc0 : ¬ c = '0' := by
      intro hc
      subst hc
      simp at h1
    rw [if_neg hc0]
    have hc19 : 49 ≤ c.toNat ∧ c.toNat ≤ 57 := ⟨h1, h2⟩
    rw [if_pos hc19]
    have hcs : ∀ x ∈ cs, 48 ≤ x.toNat ∧ x.toNat ≤ 57 := by
      intro x hx
      exact natDigits_digits n x (by rw [heq]; exact List.mem_cons_of_mem c hx)
    rw [spanDigits_exact cs rest hcs hrest]

theorem parseFracPart_none (rest : List Char)
    (hrest : ∀ cs2, rest ≠ '.' :: cs2) :
    parseFracPart rest = ([], rest) := by
  match rest with
  | [] => rfl
  | c :: cs =>
    rw [parseFracPart]
    rw [if_neg (fun hc => hrest cs (by rw [hc]))]

theorem parseExpPart_none (rest : List Char)
    (hrest : ∀ c cs2, rest = c :: cs2 → c ≠ 'e' ∧ c ≠ 'E') :
    parseExpPart rest = (none, rest) := by
  match rest with
  | [] => rfl
  | [c] =>
    have h := hrest c [] rfl
    rw [parseExpPart]
    rw [if_neg (by intro hor; rcases hor with h1 | h1; exact h.1 h1; exact h.2 h1)]
  | c :: s :: cs2 =>
    have h := hrest c (s :: cs2) rfl
    rw [parseExpPart]
    rw [if_neg (by intro hor; rcases hor with h1 | h1; exact h.1 h1; exact h.2 h1)]

theorem numBoundary_facts (rest : List Char) (hb : numBoundary rest) :
    (∀ c cs2, rest = c :: cs2 → ¬(48 ≤ c.toNat ∧ c.toNat ≤ 57)) ∧
    (∀ cs2, rest ≠ '.' :: cs2) ∧
    (∀ c cs2, rest = c :: cs2 → c ≠ 'e' ∧ c ≠ 'E') := by
  match rest with
  | [] =>
    refine ⟨?_, ?_, ?_⟩
    · intro c cs2 h
      cases h
    · intro cs2 h
      cases h
    · intro c cs2 h
      cases h
  | c :: cs =>
    have hb2 : ¬(48 ≤ c.toNat ∧ c.toNat ≤ 57) ∧ c ≠ '.' ∧ c ≠ 'e' ∧ c ≠ 'E' := hb
    obtain ⟨h1, h2, h3, h4⟩ := hb2
    refine ⟨?_, ?_, ?_⟩
    · intro c2 cs2 heq
      injection heq with hc _
      subst hc
      exact h1
    · intro cs2 heq
      injection heq with hc _
      exact h2 hc
    · intro c2 cs2 heq
      injection heq with hc _
      subst hc
      exact ⟨h3, h4⟩

theorem parseNumber_intDigits (n : Int) (rest : List Char) (hb : numBoundary rest) :
    parseNumber (intDigits n ++ rest) = some (Json.int n, rest) := by
  obtain ⟨hd, hdot, hexp⟩ := numBoundary_facts rest hb
  have hip := parseIntPart_natDigits n.natAbs rest hd
  have hfr := parseFracPart_none rest hdot
  have hex2 := parseExpPart_none rest hexp
  by_cases hneg : n < 0
  · rw [intDigits, if_pos hneg, List.cons_append, parseNumber]
    simp [hip, hfr, hex2, digitsToNat_natDigits]
    rw [abs_of_neg hneg]
    omega
  · rw [intDigits, if_neg hneg]
    have hh : ∃ c cs, natDigits n.toNat = c :: cs ∧ 48 ≤ c.toNat ∧ c.toNat ≤ 57 := by
      cases hnd : natDigits n.toNat with
      | nil => exact absurd hnd (natDigits_ne_nil n.toNat)
      | cons c cs =>
        have hcc := natDigits_digits n.toNat c (by rw [hnd]; exact List.mem_cons_self c cs)
        exact ⟨c, cs, rfl, hcc⟩
    obtain ⟨c, cs, heq, hc1, hc2⟩ := hh
    have habs : n.natAbs = n.toNat := by omega
    rw [habs] at hip
    have hlist : natDigits n.toNat ++ rest = c :: (cs ++ rest) := by
      rw [heq, List.cons_append]
    rw [hlist, parseNumber]
    have hcm : ¬ c = '-' := by
      intro hc
      subst hc
      simp at hc1
    rw [hlist] at hip
    simp [hcm, hip, hfr, hex2, digitsToNat_natDigits]
    omega

theorem parseFracPart_pad (e : Nat) (k : Nat) (rest : List Char) (hb : numBoundary rest) :
    parseFracPart ('.' :: (natDigitsPad e k ++ rest)) = (natDigitsPad e k, rest) := by
  obtain ⟨hd, _, _⟩ := numBoundary_facts rest hb
  rw [parseFracPart]
  rw [if_pos rfl]
  rw [spanDigits_exact (natDigitsPad e k) rest (natDigitsPad_digits e k) hd]
  simp [natDigitsPad_ne_nil e k]

theorem parseNumber_dumpDec (m : Int) (e : Nat) (he : 1 ≤ e) (rest : List Char)
    (hb : numBoundary rest) :
    parseNumber (dumpDec m e ++ rest) = some (Json.dec m e, rest) := by
  obtain ⟨hd, hdot, hexp⟩ := numBoundary_facts rest hb
  have hpow : 0 < 10 ^ e := Nat.pos_pow_of_pos e (by omega)
  have hmod : m.natAbs % 10 ^ e < 10 ^ e := Nat.mod_lt m.natAbs hpow
  have hpadlen := natDigitsPad_length e (m.natAbs % 10 ^ e) hmod he
  have hdotrest : ∀ c cs2,
      ('.' :: (natDigitsPad e (m.natAbs % 10 ^ e) ++ rest)) = c :: cs2 →
        ¬(48 ≤ c.toNat ∧ c.toNat ≤ 57) := by
    intro c cs2 h
    injection h with h1 _
    subst h1
    decide
  have hip := parseIntPart_natDigits (m.natAbs / 10 ^ e)
    ('.' :: (natDigitsPad e (m.natAbs % 10 ^ e) ++ rest)) hdotrest
  have hfr := parseFracPart_pad e (m.natAbs % 10 ^ e) rest hb
  have hex2 := parseExpPart_none rest hexp
  have hsum : digitsToNat (natDigits (m.natAbs / 10 ^ e) ++ natDigitsPad e (m.natAbs % 10 ^ e))
      = m.natAbs := by
    rw [digitsToNat_append, digitsToNat_natDigits, digitsToNat_natDigitsPad, hpadlen,
      Nat.mul_comm]
    exact Nat.div_add_mod m.natAbs (10 ^ e)
  obtain ⟨p0, prest, hpad⟩ : ∃ p0 prest,
      natDigitsPad e (m.natAbs % 10 ^ e) = p0 :: prest := by
    cases hp : natDigitsPad e (m.natAbs % 10 ^ e) with
    | nil => exact absurd hp (natDigitsPad_ne_nil e _)
    | cons p0 prest => exact ⟨p0, prest, rfl⟩
  rw [hpad] at hip hfr hsum hpadlen
  simp only [List.cons_append, List.append_assoc] at hip hfr
  by_cases hneg : m < 0
  · rw [dumpDec, if_neg (by omega), if_pos hneg]
    simp only [List.cons_append, List.nil_append, List.append_assoc, hpad]
    rw [parseNumber]
    simp [hip, hfr, hex2, hsum, hpadlen]
    rw [if_neg (show ¬ e = 0 from by omega)]
    simp [abs_of_neg hneg]
  · rw [dumpDec, if_neg (by omega), if_neg hneg]
    simp only [List.nil_append, List.append_assoc, hpad]
    obtain ⟨c, cs, heq, hc1, hc2⟩ : ∃ c cs,
        natDigits (m.natAbs / 10 ^ e) = c :: cs ∧ 48 ≤ c.toNat ∧ c.toNat ≤ 57 := by
      cases hnd : natDigits (m.natAbs / 10 ^ e) with
      | nil => exact absurd hnd (natDigits_ne_nil _)
      | cons c cs =>
        have hcc := natDigits_digits (m.natAbs / 10 ^ e) c
          (by rw [hnd]; exact List.mem_cons_self c cs)
        exact ⟨c, cs, rfl, hcc⟩
    have hcm : ¬ c = '-' := by
      intro hc
      subst hc
      simp at hc1
    rw [heq] at hip ⊢
    simp only [List.cons_append] at hip ⊢
    rw [parseNumber]
    simp [hcm, hip, hfr, hex2, hpadlen]
    rw [heq] at hsum
    simp only [List.cons_append] at hsum
    rw [if_neg (show ¬ e = 0 from by omega), hsum]
    simp only [Option.some.injEq, Prod.mk.injEq, Json.dec.injEq]
    refine ⟨⟨by omega, ?_⟩, ?_⟩ <;> trivial

theorem parseValue_toNumber (fuel : Nat) (c : Char) (cs2 : List Char)
    (hc : c.toNat = 45 ∨ (48 ≤ c.toNat ∧ c.toNat ≤ 57)) :
    parseValue (fuel + 1) (c :: cs2) = parseNumber (c :: cs2) := by
  have h1 : ¬ c = '"' := by intro h; subst h; revert hc; decide
  have h2 : ¬ c = '[' := by intro h; subst h; revert hc; decide
  have h3 : ¬ c = '{' := by intro h; subst h; revert hc; decide
  have h4 : ¬ c = 'n' := by intro h; subst h; revert hc; decide
  have h5 : ¬ c = 't' := by intro h; subst h; revert hc; decide
  have h6 : ¬ c = 'f' := by intro h; subst h; revert hc; decide
  have hws : skipWs (c :: cs2) = c :: cs2 := by
    rw [skipWs]
    rw [if_neg ?_]
    rintro (h | h | h | h) <;> (subst h; revert hc; decide)
  rw [parseValue, hws]
  simp only [h1, h2, h3, h4, h5, h6, if_false]

theorem parseValue_intDigits (fuel : Nat) (n : Int) (rest : List Char)
    (hb : numBoundary rest) :
    parseValue (fuel + 1) (intDigits n ++ rest) = some (Json.int n, rest) := by
  obtain ⟨c, cs2, hcons, hc⟩ : ∃ c cs2, intDigits n ++ rest = c :: cs2 ∧
      (c.toNat = 45 ∨ (48 ≤ c.toNat ∧ c.toNat ≤ 57)) := by
    by_cases hneg : n < 0
    · rw [intDigits, if_pos hneg, List.cons_append]
      exact ⟨'-', _, rfl, Or.inl (by decide)⟩
    · rw [intDigits, if_neg hneg]
      cases hnd : natDigits n.toNat with
      | nil => exact absurd hnd (natDigits_ne_nil _)
      | cons c cs =>
        have hcc := natDigits_digits n.toNat c (by rw [hnd]; exact List.mem_cons_self c cs)
        exact ⟨c, cs ++ rest, by rw [List.cons_append], Or.inr hcc⟩
  rw [hcons, parseValue_toNumber fuel c cs2 hc, ← hcons]
  exact parseNumber_intDigits n rest hb

theorem parseValue_dumpDec (fuel : Nat) (m : Int) (e : Nat) (he : 1 ≤ e)
    (rest : List Char) (hb : numBoundary rest) :
    parseValue (fuel + 1) (dumpDec m e ++ rest) = some (Json.dec m e, rest) := by
  obtain ⟨c, cs2, hcons, hc⟩ : ∃ c cs2, dumpDec m e ++ rest = c :: cs2 ∧
      (c.toNat = 45 ∨ (48 ≤ c.toNat ∧ c.toNat ≤ 57)) := by
    rw [dumpDec, if_neg (show ¬ e = 0 from by omega)]
    by_cases hneg : m < 0
    · rw [if_pos hneg]
      simp only [List.cons_append, List.nil_append]
      exact ⟨'-', _, rfl, Or.inl (by decide)⟩
    · rw [if_neg hneg]
      simp only [List.nil_append]
      cases hnd : natDigits (m.natAbs / 10 ^ e) with
      | nil => exact absurd hnd (natDigits_ne_nil _)
      | cons c cs =>
        have hcc := natDigits_digits (m.natAbs / 10 ^ e) c
          (by rw [hnd]; exact List.mem_cons_self c cs)
        refine ⟨c, cs ++ '.' :: natDigitsPad e (m.natAbs % 10 ^ e) ++ rest, ?_, Or.inr hcc⟩
        simp [List.cons_append, List.append_assoc]
  rw [hcons, parseValue_toNumber fuel c cs2 hc, ← hcons]
  exact parseNumber_dumpDec m e he rest hb

theorem skipWs_cons (c : Char) (l : List Char)
    (h : ¬(c = ' ' ∨ c = '\t' ∨ c = '\n' ∨ c = '\r')) : skipWs (c :: l) = c :: l := by
  rw [skipWs, if_neg h]

theorem skipWs_space (l : List Char) : skipWs (' ' :: l) = skipWs l := by
  rw [skipWs]
  simp

theorem parseStringBody_at_len (l : List Char) (tail : List Char) :
    parseStringBody (((l.map escapeChar).flatten ++ '"' :: tail).length + 1)
      ((l.map escapeChar).flatten ++ '"' :: tail) = some (l, tail) := by
  apply parseStringBody_escaped
  have := escaped_length_ge l
  simp only [List.length_append, List.length_cons]
  omega

theorem parseValue_skip_space (f2 : Nat) (l : List Char) :
    parseValue (f2 + 1) (' ' :: l) = parseValue (f2 + 1) l := by
  conv_lhs => rw [parseValue]
  conv_rhs => rw [parseValue]
  rw [skipWs_space]

theorem numBoundary_of_head (c : Char) (l : List Char)
    (h : ¬(48 ≤ c.toNat ∧ c.toNat ≤ 57) ∧ c ≠ '.' ∧ c ≠ 'e' ∧ c ≠ 'E') :
    numBoundary (c :: l) := h

theorem parseMembers_scalars (k : String) (v : Json) (kvs2 : List (String × Json)) :
    ∀ (rest : List Char) (f : Nat), kvs2.length + 2 ≤ f →
      (∀ kv ∈ (k, v) :: kvs2, ∀ f2 : Nat, ∀ tail : List Char, numBoundary tail →
        parseValue (f2 + 1) (dumpJson kv.2 ++ tail) = some (kv.2, tail)) →
      parseMembers f (dumpObj ((k, v) :: kvs2) ++ '}' :: rest)
        = some ((k, v) :: kvs2, rest) := by
  induction kvs2 generalizing k v with
  | nil =>
    intro rest f hf hval
    obtain ⟨f1, rfl⟩ : ∃ f1, f = f1 + 1 := ⟨f - 1, by omega⟩
    obtain ⟨f2, hf2⟩ : ∃ f2, f1 = f2 + 1 := ⟨f1 - 1, by omega⟩
    rw [dumpObj, dumpString]
    simp only [List.cons_append, List.append_assoc, List.nil_append]
    rw [parseMembers]
    rw [skipWs_cons '"' _ (by decide)]
    simp only [parseStringBody_at_len]
    rw [skipWs_cons ':' _ (by decide)]
    simp only [if_pos rfl]
    rw [hf2, parseValue_skip_space]
    rw [hval (k, v) (List.mem_cons_self _ _) f2 ('}' :: rest)
      (numBoundary_of_head _ _ (by decide))]
    have hsw : skipWs ('}' :: rest) = '}' :: rest := skipWs_cons '}' _ (by decide)
    simp [hsw]
  | cons m t ih =>
    intro rest f hf hval
    obtain ⟨mk, mv⟩ := m
    obtain ⟨f1, rfl⟩ : ∃ f1, f = f1 + 1 := ⟨f - 1, by omega⟩
    obtain ⟨f2, hf2⟩ : ∃ f2, f1 = f2 + 1 := ⟨f1 - 1, by omega⟩
    rw [dumpObj, dumpString]
    simp only [List.cons_append, List.append_assoc, List.nil_append]
    rw [parseMembers]
    rw [skipWs_cons '"' _ (by decide)]
    simp only [parseStringBody_at_len]
    rw [skipWs_cons ':' _ (by decide)]
    simp only [if_pos rfl]
    rw [hf2, parseValue_skip_space]
    rw [hval (k, v) (List.mem_cons_self _ _) f2
      (',' :: ' ' :: (dumpObj ((mk, mv) :: t) ++ '}' :: rest))
      (numBoundary_of_head _ _ (by decide))]
    have hrec : parseMembers (f2 + 1) (' ' :: (dumpObj ((mk, mv) :: t) ++ '}' :: rest))
        = some ((mk, mv) :: t, rest) := by
      have hskip2 : parseMembers (f2 + 1) (' ' :: (dumpObj ((mk, mv) :: t) ++ '}' :: rest))
          = parseMembers (f2 + 1) (dumpObj ((mk, mv) :: t) ++ '}' :: rest) := by
        conv_lhs => rw [parseMembers]
        conv_rhs => rw [parseMembers]
        rw [skipWs_space]
      rw [hskip2]
      exact ih mk mv rest (f2 + 1) (by simp at hf ⊢; omega)
        (fun kv hkv => hval kv (List.mem_cons_of_mem _ hkv))
    have hsw : skipWs (',' :: ' ' :: (dumpObj ((mk, mv) :: t) ++ '}' :: rest))
        = ',' :: ' ' :: (dumpObj ((mk, mv) :: t) ++ '}' :: rest) :=
      skipWs_cons ',' _ (by decide)
    simp [hsw, hrec]

theorem dumpObj_cons_head (k : String) (v : Json) (kvs2 : List (String × Json)) :
    ∃ l, dumpObj ((k, v) :: kvs2) = '"' :: l := by
  cases kvs2 with
  | nil =>
    refine ⟨(k.data.map escapeChar).flatten ++ '"' :: ':' :: ' ' :: dumpJson v, ?_⟩
    rw [dumpObj, dumpString]
    simp
  | cons m t =>
    refine ⟨(k.data.map escapeChar).flatten ++ '"' :: ':' :: ' ' ::
      (dumpJson v ++ ',' :: ' ' :: dumpObj (m :: t)), ?_⟩
    rw [dumpObj, dumpString]
    simp

theorem parseValue_dumpObj (k : String) (v : Json) (kvs2 : List (String × Json))
    (fuel : Nat) (rest : List Char) (hf : kvs2.length + 2 ≤ fuel)
    (hval : ∀ kv ∈ (k, v) :: kvs2, ∀ f2 : Nat, ∀ tail : List Char, numBoundary tail →
      parseValue (f2 + 1) (dumpJson kv.2 ++ tail) = some (kv.2, tail)) :
    parseValue (fuel + 1) (dumpJson (Json.obj ((k, v) :: kvs2)) ++ rest)
      = some (Json.obj ((k, v) :: kvs2), rest) := by
  obtain ⟨l, hl⟩ := dumpObj_cons_head k v kvs2
  have hmem := parseMembers_scalars k v kvs2 rest fuel hf hval
  rw [hl] at hmem
  simp only [List.cons_append] at hmem
  rw [dumpJson]
  simp only [List.cons_append, List.append_assoc, List.nil_append]
  rw [parseValue]
  rw [skipWs_cons '{' _ (by decide)]
  rw [hl]
  simp only [List.cons_append]
  have hsw : skipWs ('"' :: (l ++ '}' :: rest)) = '"' :: (l ++ '}' :: rest) :=
    skipWs_cons _ _ (by decide)
  simp [hsw, hmem]

theorem json_loads_dumps_obj (k : String) (v : Json) (kvs2 : List (String × Json))
    (hlen : kvs2.length + 2 ≤ (dumpJson (Json.obj ((k, v) :: kvs2))).length)
    (hval : ∀ kv ∈ (k, v) :: kvs2, ∀ f2 : Nat, ∀ tail : List Char, numBoundary tail →
      parseValue (f2 + 1) (dumpJson kv.2 ++ tail) = some (kv.2, tail)) :
    json_loads (json_dumps (Json.obj ((k, v) :: kvs2)))
      = some (Json.obj ((k, v) :: kvs2)) := by
  have hobj := parseValue_dumpObj k v kvs2
    ((dumpJson (Json.obj ((k, v) :: kvs2))).length) [] hlen hval
  rw [List.append_nil] at hobj
  rw [json_dumps, json_loads]
  have hl2 : (String.mk (dumpJson (Json.obj ((k, v) :: kvs2)))).length
      = (dumpJson (Json.obj ((k, v) :: kvs2))).length := rfl
  have hd2 : (String.mk (dumpJson (Json.obj ((k, v) :: kvs2)))).data
      = dumpJson (Json.obj ((k, v) :: kvs2)) := rfl
  rw [hl2, hd2, hobj]
  rfl

theorem json_loads_packet_meta (f : Frame) (src : String) (sz : Nat) (tm : Int)
    (te : Nat) (hte : 1 ≤ te) :
    json_loads (json_dumps (packet_meta f src sz tm te))
      = some (packet_meta f src sz tm te) := by
  rw [packet_meta]
  apply json_loads_dumps_obj
  · have htyp : ("type".data.map escapeChar).flatten = ['t', 'y', 'p', 'e'] := rfl
    rw [dumpJson, dumpObj, dumpString, htyp]
    simp [List.length_append]
  · intro kv hkv f2 tail hb
    simp only [List.mem_cons, List.not_mem_nil, or_false] at hkv
    rcases hkv with rfl | rfl | rfl | rfl | rfl | rfl | rfl
    · exact parseValue_dumpString "frame" tail f2
    · exact parseValue_dumpString HEXCAST_VERSION tail f2
    · exact parseValue_dumpString src tail f2
    · exact parseValue_intDigits f2 _ tail hb
    · exact parseValue_intDigits f2 _ tail hb
    · exact parseValue_intDigits f2 _ tail hb
    · exact parseValue_dumpDec f2 tm te hte tail hb

theorem b64index_b64chr : ∀ i : Nat, i < 64 → b64index (b64chr i) = some i := by
  decide

theorem b64chr_ne_pad : ∀ i : Nat, i < 64 → b64chr i ≠ '=' := by
  decide

theorem b64encode_length_mod (bs : List Nat) : (b64encode bs).length % 4 = 0 := by
  induction bs using b64encode.induct with
  | case1 => rfl
  | case2 x => simp [b64encode]
  | case3 x y => simp [b64encode]
  | case4 x y z rest ih =>
    rw [b64encode]
    simp only [List.length_append, List.length_cons, List.length_nil]
    omega

theorem b64encode_chars (bs : List Nat) (hb : ∀ b ∈ bs, b < 256) :
    ∀ c ∈ b64encode bs, (∃ i, i < 64 ∧ c = b64chr i) ∨ c = '=' := by
  induction bs using b64encode.induct with
  | case1 => intro c hc; cases hc
  | case2 x =>
    have hx := hb x (List.mem_cons_self x [])
    intro c hc
    rw [b64encode] at hc
    simp only [List.mem_cons, List.not_mem_nil, or_false] at hc
    rcases hc with rfl | rfl | rfl | rfl
    · exact Or.inl ⟨x / 4, by omega, rfl⟩
    · exact Or.inl ⟨x % 4 * 16, by omega, rfl⟩
    · exact Or.inr rfl
    · exact Or.inr rfl
  | case3 x y =>
    have hx := hb x (List.mem_cons_self x [y])
    have hy := hb y (List.mem_cons_of_mem x (List.mem_cons_self y []))
    intro c hc
    rw [b64encode] at hc
    simp only [List.mem_cons, List.not_mem_nil, or_false] at hc
    rcases hc with rfl | rfl | rfl | rfl
    · exact Or.inl ⟨x / 4, by omega, rfl⟩
    · exact Or.inl ⟨x % 4 * 16 + y / 16, by omega, rfl⟩
    · exact Or.inl ⟨y % 16 * 4, by omega, rfl⟩
    · exact Or.inr rfl
  | case4 x y z rest ih =>
    have hx := hb x (List.mem_cons_self x _)
    have hy := hb y (List.mem_cons_of_mem x (List.mem_cons_self y _))
    have hz := hb z (List.mem_cons_of_mem x (List.mem_cons_of_mem y (List.mem_cons_self z _)))
    intro c hc
    rw [b64encode] at hc
    simp only [List.mem_append, List.mem_cons, List.not_mem_nil, or_false] at hc
    rcases hc with (rfl | rfl | rfl | rfl) | hc
    · exact Or.inl ⟨x / 4, by omega, rfl⟩
    · exact Or.inl ⟨x % 4 * 16 + y / 16, by omega, rfl⟩
    · exact Or.inl ⟨y % 16 * 4 + z / 64, by omega, rfl⟩
    · exact Or.inl ⟨z % 64, by omega, rfl⟩
    · exact ih (fun b hbm => hb b (List.mem_cons_of_mem x
        (List.mem_cons_of_mem y (List.mem_cons_of_mem z hbm)))) c hc

theorem b64groups_b64encode (bs : List Nat) (hb : ∀ b ∈ bs, b < 256) :
    b64groups (b64encode bs) = some bs := by
  induction bs using b64encode.induct with
  | case1 => rfl
  | case2 x =>
    have hx := hb x (List.mem_cons_self x [])
    rw [b64encode, b64groups]
    rw [b64index_b64chr (x / 4) (by omega), b64index_b64chr (x % 4 * 16) (by omega)]
    simp
    omega
  | case3 x y =>
    have hx := hb x (List.mem_cons_self x [y])
    have hy := hb y (List.mem_cons_of_mem x (List.mem_cons_self y []))
    rw [b64encode, b64groups]
    rw [b64index_b64chr (x / 4) (by omega),
      b64index_b64chr (x % 4 * 16 + y / 16) (by omega),
      b64index_b64chr (y % 16 * 4) (by omega)]
    have hne := b64chr_ne_pad (y % 16 * 4) (by omega)
    simp [hne]
    omega
  | case4 x y z rest ih =>
    have hx := hb x (List.mem_cons_self x _)
    have hy := hb y (List.mem_cons_of_mem x (List.mem_cons_self y _))
    have hz := hb z (List.mem_cons_of_mem x (List.mem_cons_of_mem y (List.mem_cons_self z _)))
    have hrest := ih (fun b hbm => hb b (List.mem_cons_of_mem x
      (List.mem_cons_of_mem y (List.mem_cons_of_mem z hbm))))
    rw [b64encode]
    simp only [List.cons_append, List.nil_append]
    rw [b64groups]
    rw [b64index_b64chr (x / 4) (by omega),
      b64index_b64chr (x % 4 * 16 + y / 16) (by omega),
      b64index_b64chr (y % 16 * 4 + z / 64) (by omega),
      b64index_b64chr (z % 64) (by omega)]
    have hne3 := b64chr_ne_pad (y % 16 * 4 + z / 64) (by omega)
    have hne4 := b64chr_ne_pad (z % 64) (by omega)
    simp [hne3, hne4, hrest]
    omega

theorem b64decode_b64encode (bs : List Nat) (hb : ∀ b ∈ bs, b < 256) :
    b64decode (b64encode bs) = some bs := by
  have hfilter : (b64encode bs).filter (fun c => (b64index c).isSome || c == '=')
      = b64encode bs := by
    rw [List.filter_eq_self]
    intro c hc
    rcases b64encode_chars bs hb c hc with ⟨i, hi, rfl⟩ | rfl
    · simp [b64index_b64chr i hi]
    · simp
  rw [b64decode]
  simp only [hfilter, b64encode_length_mod bs, if_pos]
  exact b64groups_b64encode bs hb

theorem hexDigitChar_ne_nl : ∀ d : Nat, d < 16 → hexDigitChar d ≠ '\n' := by
  decide

theorem hex4_no_nl (n : Nat) : ∀ d ∈ hex4 n, d ≠ '\n' := by
  intro d hd
  rw [hex4] at hd
  simp only [List.mem_cons, List.not_mem_nil, or_false] at hd
  rcases hd with rfl | rfl | rfl | rfl <;>
    exact hexDigitChar_ne_nl _ (Nat.mod_lt _ (by omega))

set_option maxHeartbeats 1000000 in
theorem escapeChar_no_nl (c : Char) : ∀ d ∈ escapeChar c, d ≠ '\n' := by
  intro d hd
  rw [escapeChar] at hd
  split_ifs at hd with h1 h2 h3 h4 h5 h6 h7 h8 h9 h10
  · simp only [List.mem_cons, List.not_mem_nil, or_false] at hd
    rcases hd with rfl | rfl <;> decide
  · simp only [List.mem_cons, List.not_mem_nil, or_false] at hd
    rcases hd with rfl | rfl <;> decide
  · simp only [List.mem_cons, List.not_mem_nil, or_false] at hd
    rcases hd with rfl | rfl <;> decide
  · simp only [List.mem_cons, List.not_mem_nil, or_false] at hd
    rcases hd with rfl | rfl <;> decide
  · simp only [List.mem_cons, List.not_mem_nil, or_false] at hd
    rcases hd with rfl | rfl <;> decide
  · simp only [List.mem_cons, List.not_mem_nil, or_false] at hd
    rcases hd with rfl | rfl <;> decide
  · simp only [List.mem_cons, List.not_mem_nil, or_false] at hd
    rcases hd with rfl | rfl <;> decide
  · simp only [List.mem_cons] at hd
    rcases hd with rfl | rfl | hd
    · decide
    · decide
    · exact hex4_no_nl _ d hd
  · simp only [List.mem_cons, List.not_mem_nil, or_false] at hd
    subst hd
    intro h
    rw [h] at h8
    exact h8 (by decide)
  · simp only [List.mem_cons] at hd
    rcases hd with rfl | rfl | hd
    · decide
    · decide
    · exact hex4_no_nl _ d hd
  · simp only [List.mem_append, List.mem_cons] at hd
    rcases hd with (rfl | rfl | hd) | (rfl | rfl | hd)
    · decide
    · decide
    · exact hex4_no_nl _ d hd
    · decide
    · decide
    · exact hex4_no_nl _ d hd

theorem dumpString_no_nl (s : String) : '\n' ∉ dumpString s := by
  rw [dumpString]
  intro h
  rcases List.mem_cons.mp h with h | h
  · exact absurd h (by decide)
  · rcases List.mem_append.mp h with h | h
    · rcases List.mem_flatten.mp h with ⟨l, hl, hmem⟩
      rcases List.mem_map.mp hl with ⟨ch, _, rfl⟩
      exact escapeChar_no_nl ch _ hmem rfl
    · rw [List.mem_singleton] at h
      exact absurd h (by decide)

theorem natDigits_no_nl (n : Nat) : '\n' ∉ natDigits n := by
  intro h
  exact absurd (natDigits_digits n _ h) (by decide)

theorem intDigits_no_nl (n : Int) : '\n' ∉ intDigits n := by
  rw [intDigits]
  split_ifs
  · intro h
    rcases List.mem_cons.mp h with h | h
    · exact absurd h (by decide)
    · exact natDigits_no_nl _ h
  · exact natDigits_no_nl _

theorem natDigitsPad_no_nl (w k : Nat) : '\n' ∉ natDigitsPad w k := by
  rw [natDigitsPad]
  intro h
  rcases List.mem_append.mp h with h | h
  · exact absurd (List.eq_of_mem_replicate h) (by decide)
  · exact natDigits_no_nl _ h

theorem dumpDec_no_nl (m : Int) (e : Nat) : '\n' ∉ dumpDec m e := by
  rw [dumpDec]
  split_ifs with h1 h2
  · intro h
    rcases List.mem_append.mp h with h | h
    · exact intDigits_no_nl _ h
    · simp only [List.mem_cons, List.not_mem_nil, or_false] at h
      rcases h with h | h <;> exact absurd h (by decide)
  · intro h
    rcases List.mem_append.mp h with h | h
    · rcases List.mem_append.mp h with h | h
      · rw [List.mem_singleton] at h
        exact absurd h (by decide)
      · exact natDigits_no_nl _ h
    · rcases List.mem_cons.mp h with h | h
      · exact absurd h (by decide)
      · exact natDigitsPad_no_nl _ _ h
  · intro h
    rcases List.mem_append.mp h with h | h
    · rcases List.mem_append.mp h with h | h
      · exact absurd h (by simp)
      · exact natDigits_no_nl _ h
    · rcases List.mem_cons.mp h with h | h
      · exact absurd h (by decide)
      · exact natDigitsPad_no_nl _ _ h

theorem packet_meta_no_nl (f : Frame) (src : String) (sz : Nat) (tm : Int)
    (te : Nat) : '\n' ∉ dumpJson (packet_meta f src sz tm te) := by
  rw [packet_meta, dumpJson]
  simp only [dumpObj, dumpJson]
  simp [List.mem_cons, List.mem_append, dumpString_no_nl, intDigits_no_nl,
    dumpDec_no_nl]

theorem splitOnceNl_append (a b : List Char) (ha : '\n' ∉ a) :
    splitOnceNl (a ++ '\n' :: b) = some (a, b) := by
  induction a with
  | nil =>
    rw [List.nil_append, splitOnceNl]
    simp
  | cons c t ih =>
    rw [List.cons_append, splitOnceNl]
    have hc : ¬ c = '\n' := fun h => ha (h ▸ List.mem_cons_self c t)
    rw [if_neg hc, ih (fun h => ha (List.mem_cons_of_mem c h))]
    rfl

theorem make_packet_head (compress : Frame → List Nat) (f : Frame) (src : String)
    (tm : Int) (te : Nat) :
    packetHead (make_packet compress f src tm te)
      = dumpJson (packet_meta f src (compress f).length tm te) := by
  rw [packetHead]
  have hd : (make_packet compress f src tm te).data
      = dumpJson (packet_meta f src (compress f).length tm te) ++
          '\n' :: b64encode (compress f) := rfl
  rw [hd, splitOnceNl_append _ _ (packet_meta_no_nl f src (compress f).length tm te)]

theorem make_packet_payload (compress : Frame → List Nat) (f : Frame) (src : String)
    (tm : Int) (te : Nat) :
    packetPayload (make_packet compress f src tm te)
      = some (b64encode (compress f)) := by
  rw [packetPayload]
  have hd : (make_packet compress f src tm te).data
      = dumpJson (packet_meta f src (compress f).length tm te) ++
          '\n' :: b64encode (compress f) := rfl
  rw [hd, splitOnceNl_append _ _ (packet_meta_no_nl f src (compress f).length tm te)]

theorem metaGetType_packet_meta (f : Frame) (src : String) (sz : Nat) (tm : Int)
    (te : Nat) :
    metaGetType (packet_meta f src sz tm te) = Except.ok (Json.str "frame") := rfl

theorem parse_packet_frame_pipeline (be : Backend) (j : Json) (jpg : List Nat)
    (f2 : Frame)
    (hnl : '\n' ∉ dumpJson j)
    (hloads : json_loads (String.mk (dumpJson j)) = some j)
    (htype : metaGetType j = Except.ok (Json.str "frame"))
    (hbytes : ∀ b ∈ jpg, b < 256)
    (hcv : be.hasCv2 = true)
    (hdec : be.decCv2 jpg = Except.ok (some f2)) :
    parse_packet be (String.mk (dumpJson j ++ '\n' :: b64encode jpg))
      = (j, some f2) := by
  have hsplit := splitOnceNl_append (dumpJson j) (b64encode jpg) hnl
  have hdata : (String.mk (dumpJson j ++ '\n' :: b64encode jpg)).data
      = dumpJson j ++ '\n' :: b64encode jpg := rfl
  have hhead : packetHead (String.mk (dumpJson j ++ '\n' :: b64encode jpg))
      = dumpJson j := by
    rw [packetHead, hdata, hsplit]
  have hpay : packetPayload (String.mk (dumpJson j ++ '\n' :: b64encode jpg))
      = some (b64encode jpg) := by
    rw [packetPayload, hdata, hsplit]
  have hb64 := b64decode_b64encode jpg hbytes
  rw [parse_packet, parse_packet_body, hhead, hloads, hpay]
  simp [htype, hb64, hcv, hdec, bind, Except.bind]

theorem parse_packet_make (be : Backend) (compress : Frame → List Nat) (f f2 : Frame)
    (src : String) (tm : Int) (te : Nat) (hte : 1 ≤ te)
    (hbytes : ∀ b ∈ compress f, b < 256) (hcv : be.hasCv2 = true)
    (hdec : be.decCv2 (compress f) = Except.ok (some f2)) :
    parse_packet be (make_packet compress f src tm te)
      = (packet_meta f src (compress f).length tm te, some f2) := by
  have hmk : make_packet compress f src tm te
      = String.mk (dumpJson (packet_meta f src (compress f).length tm te) ++
          '\n' :: b64encode (compress f)) := rfl
  rw [hmk]
  exact parse_packet_frame_pipeline be _ _ f2
    (packet_meta_no_nl f src (compress f).length tm te)
    (json_loads_packet_meta f src (compress f).length tm te hte)
    (metaGetType_packet_meta f src (compress f).length tm te)
    hbytes hcv hdec

theorem small_obj_no_nl (sz : Int) :
    '\n' ∉ dumpJson (Json.obj [("type", Json.str "frame"), ("sz", Json.int sz)]) := by
  rw [dumpJson]
  simp only [dumpObj, dumpJson]
  simp [List.mem_cons, List.mem_append, dumpString_no_nl, intDigits_no_nl]

theorem json_loads_small_obj (sz : Int) :
    json_loads (json_dumps (Json.obj [("type", Json.str "frame"), ("sz", Json.int sz)]))
      = some (Json.obj [("type", Json.str "frame"), ("sz", Json.int sz)]) := by
  apply json_loads_dumps_obj
  · have htyp : ("type".data.map escapeChar).flatten = ['t', 'y', 'p', 'e'] := rfl
    rw [dumpJson, dumpObj, dumpString, htyp]
    simp [List.length_append]
  · intro kv hkv f2 tail hb
    simp only [List.mem_cons, List.not_mem_nil, or_false] at hkv
    rcases hkv with rfl | rfl
    · exact parseValue_dumpString "frame" tail f2
    · exact parseValue_intDigits f2 _ tail hb

/-- C6: round-trip of the wire format. For a frame compressed to in-range
payload bytes, a cv2 backend whose decode succeeds, and a timestamp with at
least one fractional digit, parse_packet on make_packet's output returns
metadata equal (field by field: type, v, src, w, h, sz, t) to the object
make_packet serialized, together with the decoded buffer, whose width and
height agree with the original frame whenever the external codec preserves
dimensions (the spec's stated codec property). -/
theorem make_parse_roundtrip_fields (be : Backend) (compress : Frame → List Nat)
    (f f2 : Frame) (src : String) (tm : Int) (te : Nat) (hte : 1 ≤ te)
    (hbytes : ∀ b ∈ compress f, b < 256) (hcv : be.hasCv2 = true)
    (hdec : be.decCv2 (compress f) = Except.ok (some f2))
    (hw : fshape1 f2 = fshape1 f) (hh : fshape0 f2 = fshape0 f) :
    parse_packet be (make_packet compress f src tm te)
      = (packet_meta f src (compress f).length tm te, some f2)
    ∧ fshape1 f2 = fshape1 f ∧ fshape0 f2 = fshape0 f :=
  ⟨parse_packet_make be compress f f2 src tm te hte hbytes hcv hdec, hw, hh⟩

/-- Concrete instance of the round-trip theorem: a 1-by-1 frame, a
three-byte payload, the cv2 test backend. -/
theorem make_parse_roundtrip_fields_witness :
    parse_packet be_test (make_packet (fun _ => [0, 0, 0]) [[(0, 0, 0)]] "cam" 0 1)
      = (packet_meta [[(0, 0, 0)]] "cam" 3 0 1, some [[(0, 0, 0)]])
    ∧ fshape1 [[(0, 0, 0)]] = fshape1 [[(0, 0, 0)]]
    ∧ fshape0 [[(0, 0, 0)]] = fshape0 [[(0, 0, 0)]] :=
  make_parse_roundtrip_fields be_test (fun _ => [0, 0, 0]) [[(0, 0, 0)]]
    [[(0, 0, 0)]] "cam" 0 1 (by decide) (by decide) rfl rfl rfl rfl

/-- C1 counterexample: the input "5" does not conform to the wire format
(no newline, metadata not an object), yet parse_packet returns (5, None),
not the drop pair (None, None): json.loads accepts the bare number and the
missing payload path keeps the parsed metadata. -/
theorem parse_packet_nonconforming_counterexample :
    parse_packet be_test "5" = (Json.int 5, none)
    ∧ ((Json.int 5, none) : Json × Option Frame) ≠ (Json.null, none) := by
  refine ⟨rfl, ?_⟩
  intro h
  exact Json.noConfusion (congrArg Prod.fst h)

/-- C1: parse_packet never raises (it is a total function into metadata
pairs), and the drop pair (None, None) is returned whenever the metadata
line is not parsable JSON; but not for every malformed input, as the
counterexample shows. -/
theorem parse_packet_drop_on_bad_json (be : Backend) (raw : String)
    (h : json_loads (String.mk (packetHead raw)) = none) :
    parse_packet be raw = (Json.null, none) := by
  rw [parse_packet, parse_packet_body, h]
  rfl

/-- Concrete instance: a lone opening brace is unparsable JSON and yields
the drop pair. -/
theorem parse_packet_drop_on_bad_json_witness :
    json_loads (String.mk (packetHead "\x7b")) = none
    ∧ parse_packet be_test "\x7b" = (Json.null, none) :=
  ⟨rfl, parse_packet_drop_on_bad_json be_test "\x7b" rfl⟩

/-- C2 counterexample: a packet declaring sz = 999 with an actual 3-byte
payload is accepted and returns a decoded frame, not a drop result: the
declared length is never compared with the decoded payload. -/
theorem parse_packet_sz_mismatch_counterexample :
    parse_packet be_test "\x7b\"type\": \"frame\", \"sz\": 999\x7d\nAAAA"
      = (Json.obj [("type", Json.str "frame"), ("sz", Json.int 999)], some [[(0, 0, 0)]])
    ∧ b64decode "AAAA".data = some [0, 0, 0]
    ∧ ([0, 0, 0] : List Nat).length ≠ 999 :=
  ⟨rfl, rfl, by decide⟩

/-- C2: the declared payload length is ignored entirely: for every declared
sz (matching the actual payload or not), a frame-typed packet with a
decodable payload is accepted and returns the decoded frame; the mismatch
is never detected, so it never yields a drop result on this path (though it
also never raises). -/
theorem parse_packet_ignores_declared_sz (be : Backend) (jpg : List Nat)
    (f2 : Frame) (sz : Int)
    (hbytes : ∀ b ∈ jpg, b < 256) (hcv : be.hasCv2 = true)
    (hdec : be.decCv2 jpg = Except.ok (some f2)) :
    parse_packet be (String.mk
        (dumpJson (Json.obj [("type", Json.str "frame"), ("sz", Json.int sz)])
          ++ '\n' :: b64encode jpg))
      = (Json.obj [("type", Json.str "frame"), ("sz", Json.int sz)], some f2) :=
  parse_packet_frame_pipeline be _ jpg f2 (small_obj_no_nl sz)
    (json_loads_small_obj sz) rfl hbytes hcv hdec

/-- Concrete instance: declared sz 999 against a 3-byte payload is still
accepted with a decoded frame. -/
theorem parse_packet_ignores_declared_sz_witness :
    parse_packet be_test (String.mk
        (dumpJson (Json.obj [("type", Json.str "frame"), ("sz", Json.int 999)])
          ++ '\n' :: b64encode [0, 0, 0]))
      = (Json.obj [("type", Json.str "frame"), ("sz", Json.int 999)], some [[(0, 0, 0)]])
    ∧ ([0, 0, 0] : List Nat).length ≠ 999 :=
  ⟨parse_packet_ignores_declared_sz be_test [0, 0, 0] [[(0, 0, 0)]] 999
    (by decide) rfl rfl, by decide⟩

end Hexcast
